import Mathlib

/-!
# Skyscraper local cache (`src/localdb.cpp`): embedding and verified properties

The C++ class `LocalDb` keeps a list of `Resource` records (the index) next to a
directory tree of blob files.  The member functions are embedded as pure
functions that pass the index and the disk explicitly.  `QString` is `String`,
`QList<T>` is `List T`, `qint64` is `Int`, C++ reference parameters become extra
results.
-/

namespace Skyscraper

/-! ## Data model -/

/-- Modelled from the spec: the record type `Resource` is declared in `localdb.h`,
which is not part of the source tree; the five members are the ones
`localdb.cpp` reads and writes (`sha1`, `type`, `source`, `value`, `timestamp`),
the timestamp being the `qint64` that `fillType` compares with `qint64 newest`. -/
structure Resource where
  sha1 : String
  type : String
  source : String
  value : String
  timestamp : Int
deriving DecidableEq, Repr

/-- The member `prioMap` (`QMap<QString, QList<QString>>`): for a type, the
ordered list of preferred sources.  A key is looked up from the front. -/
abbrev PrioMap := List (String × List String)

/-- `prioMap.contains(type)`. -/
def PrioMap.contains (m : PrioMap) (type : String) : Bool :=
  (m.lookup type).isSome

/-- `prioMap.value(type)`: the list stored for the key, the empty list when the
key is absent. -/
def PrioMap.value (m : PrioMap) (type : String) : List String :=
  (m.lookup type).getD []

/-- Modelled from the spec: the class `LocalDb` is declared in `localdb.h`, which is
not part of the source tree; these are the data members `localdb.cpp` uses
(`dbDir` stands for `dbDir.absolutePath()`; the mutex is left out). -/
structure LocalDb where
  dbDir : String
  resources : List Resource
  prioMap : PrioMap
  resAtLoad : Int
deriving DecidableEq, Repr

/-- A `QImage` as far as `localdb.cpp` looks at it. -/
structure QImage where
  isNull : Bool
  width : Int
  height : Int
  pixels : String
deriving DecidableEq, Repr

/-- Modelled from the spec: the item record `GameEntry` is declared in a header that
is not part of the source tree; these are the members `localdb.cpp` uses. -/
structure GameEntry where
  sha1 : String
  source : String
  title : String
  titleSrc : String
  platform : String
  platformSrc : String
  description : String
  descriptionSrc : String
  publisher : String
  publisherSrc : String
  developer : String
  developerSrc : String
  players : String
  playersSrc : String
  tags : String
  tagsSrc : String
  rating : String
  ratingSrc : String
  releaseDate : String
  releaseDateSrc : String
  coverData : QImage
  coverSrc : String
  screenshotData : QImage
  screenshotSrc : String
  wheelData : QImage
  wheelSrc : String
  marqueeData : QImage
  marqueeSrc : String
  videoData : String
  videoFormat : String
  videoSrc : String
deriving DecidableEq, Repr

/-- Modelled from the spec: the configuration record `Settings` is declared in a
header that is not part of the source tree; these are the switches
`localdb.cpp` reads. -/
structure Settings where
  updateDb : Bool
  noResize : Bool
  cacheCovers : Bool
  cacheScreenshots : Bool
  cacheWheels : Bool
  cacheMarquees : Bool
deriving DecidableEq, Repr

/-! ## The file system and the Qt calls -/

/-- The files that exist: absolute path and contents. -/
structure Disk where
  files : List (String × String)
deriving DecidableEq, Repr

/-- `QFileInfo::exists(path)`. -/
def Disk.hasFile (d : Disk) (path : String) : Bool :=
  d.files.any (fun f => f.1 = path)

/-- Contents of the file at `path`, if there is one. -/
def Disk.content (d : Disk) (path : String) : Option String :=
  d.files.lookup path

/-- The disk without the file at `path`. -/
def Disk.erase (d : Disk) (path : String) : Disk :=
  ⟨d.files.filter (fun f => f.1 ≠ path)⟩

/-- The disk with `path` (re)created holding `data`. -/
def Disk.store (d : Disk) (path data : String) : Disk :=
  ⟨(d.erase path).files ++ [(path, data)]⟩

/-- What the host decides about the Qt calls: which paths can be opened for
writing and removed, whether a `write` of some data to an opened file stores
it, whether saving an image to a path works, and what the image transformations
give. -/
structure Host where
  writable : String → Bool
  writes : String → String → Bool
  removable : String → Bool
  imageSaves : QImage → String → Bool
  imageBytes : QImage → String
  convertToFormat : QImage → QImage
  scaledToHeight : QImage → Int → QImage
  scaledToWidth : QImage → Int → QImage

/-- `image.save(path)`: on success the file holds the encoded image, on failure
the disk is as before. -/
def saveImage (host : Host) (image : QImage) (path : String) (disk : Disk) : Bool × Disk :=
  if host.imageSaves image path then (true, disk.store path (host.imageBytes image))
  else (false, disk)

/-- `QFile f(path); if(f.open(WriteOnly)) { f.write(data); f.close(); }`.  The
Boolean is the result of `open`, the only one the caller looks at: `open`
creates the file empty, `write` fills it when it succeeds, and its result is
dropped. -/
def writeFile (host : Host) (path data : String) (disk : Disk) : Bool × Disk :=
  if host.writable path then
    (true, if host.writes path data then disk.store path data else disk.store path "")
  else (false, disk)

/-- `QFile::copy(from, to)`: fails when `from` does not exist, when `to` already
exists (Qt does not overwrite) or when `to` cannot be written. -/
def copyFile (host : Host) (src dst : String) (disk : Disk) : Bool × Disk :=
  match disk.content src with
  | none => (false, disk)
  | some data =>
    if disk.hasFile dst then (false, disk)
    else if host.writable dst then (true, disk.store dst data)
    else (false, disk)

/-- `QFile::remove(path)`. -/
def removeFile (host : Host) (path : String) (disk : Disk) : Bool × Disk :=
  if disk.hasFile path && host.removable path then (true, disk.erase path) else (false, disk)

/-- `QFileInfo(path).fileName()`: what follows the last slash. -/
def fileName (path : String) : String :=
  ⟨(path.data.reverse.takeWhile (fun c => c ≠ '/')).reverse⟩

/-- `QDirIterator(dir, Files | NoDotAndDotDot | NoSymLinks, Subdirectories)`: the
files below `dir`, in disk order.  Hidden files and symbolic links, which the
flags leave out, are not told apart from other files, so the list holds at
least what the iterator yields. -/
def dirIterator (disk : Disk) (dir : String) : List String :=
  (disk.files.map (fun f => f.1)).filter (fun p => (dir ++ "/").data <+: p.data)

/-- The five types whose value is the path of a blob file. -/
def isBlobType (type : String) : Bool :=
  type = "cover" || type = "screenshot" || type = "wheel" || type = "marquee" ||
    type = "video"

/-! ## `LocalDb::fillType` -/

/-- The first loop of `fillType`: the resources whose type is the requested
one, in scan order. -/
def typeResources (type : String) (matchingResources : List Resource) : List Resource :=
  matchingResources.filter (fun resource => resource.type = type)

/-- The nested loops over `prioMap.value(type)` (outer, index `a`) and over
`typeResources` (inner `foreach`): the first hit returns value and source. -/
def prioScan (typeRes : List Resource) : List String → Option (String × String)
  | [] => none
  | p :: ps =>
    match typeRes.find? (fun resource => resource.source = p) with
    | some resource => some (resource.value, resource.source)
    | none => prioScan typeRes ps

/-- One pass of the body of the last loop of `fillType`; the state is
`(newest, result, source)`. -/
def newestStep (st : Int × String × String) (resource : Resource) : Int × String × String :=
  if resource.timestamp ≥ st.1 then (resource.timestamp, resource.value, resource.source)
  else st

/-- The last loop of `fillType`, started with `newest = 0` and the caller's
`result` and `source`. -/
def newestScan (typeRes : List Resource) (result source : String) : Int × String × String :=
  typeRes.foldl newestStep (0, result, source)

/-- `LocalDb::fillType`.  `result` and `source` are the reference parameters; the
function returns the `bool` together with their final contents. -/
def fillType (db : LocalDb) (type : String) (matchingResources : List Resource)
    (result source : String) : Bool × String × String :=
  let typeRes := typeResources type matchingResources
  if typeRes.isEmpty then (false, result, source)
  else
    match (if db.prioMap.contains type then prioScan typeRes (db.prioMap.value type)
      else none) with
    | some (v, s) => (true, v, s)
    | none =>
      let st := newestScan typeRes result source
      (true, st.2.1, st.2.2)

/-! ## `LocalDb::addResource` -/

/-- The condition of the search loop of `addResource`: `x` has the `sha1`, `type`
and `source` of `resource`. -/
def sameTriple (x resource : Resource) : Prop :=
  x.sha1 = resource.sha1 ∧ x.type = resource.type ∧ x.source = resource.source

instance (x resource : Resource) : Decidable (sameTriple x resource) := by
  unfold sameTriple
  infer_instance

/-- The search loop of `addResource` (`for(int a = 0; a < resources.length(); ++a)`),
entered at index `a`: the first resource with the candidate's `sha1`, `type` and
`source` ends the loop; it is removed when `updateDb` is set, else `notFound`
becomes false.  The result is the list and `notFound`. -/
def addResourceScan (updateDb : Bool) (resource : Resource) (a : Nat)
    (resources : List Resource) : List Resource × Bool :=
  if h : a < resources.length then
    if sameTriple resources[a] resource then
      if updateDb then (resources.eraseIdx a, true) else (resources, false)
    else addResourceScan updateDb resource (a + 1) resources
  else (resources, true)
termination_by resources.length - a

/-- The `if(notFound)` chain of `addResource` up to `okToAppend`: the payload of
a blob type is written below `dbAbsolutePath`, an image after the optional
downscaling, which is stored back into `entry`. -/
def writePayload (host : Host) (resource : Resource) (entry : GameEntry)
    (dbAbsolutePath : String) (config : Settings) (disk : Disk) : Bool × Disk × GameEntry :=
  if resource.type = "cover" then
    let entry1 := if entry.coverData.height ≥ 512 ∧ !config.noResize
      then { entry with coverData := host.scaledToHeight entry.coverData 512 } else entry
    let r := saveImage host (host.convertToFormat entry1.coverData)
      (dbAbsolutePath ++ "/" ++ resource.value) disk
    (r.1, r.2, entry1)
  else if resource.type = "screenshot" then
    let entry1 := if entry.screenshotData.width ≥ 640 ∧ !config.noResize
      then { entry with screenshotData := host.scaledToWidth entry.screenshotData 640 }
      else entry
    let r := saveImage host (host.convertToFormat entry1.screenshotData)
      (dbAbsolutePath ++ "/" ++ resource.value) disk
    (r.1, r.2, entry1)
  else if resource.type = "wheel" then
    let entry1 := if entry.wheelData.width ≥ 640 ∧ !config.noResize
      then { entry with wheelData := host.scaledToWidth entry.wheelData 640 } else entry
    let r := saveImage host (host.convertToFormat entry1.wheelData)
      (dbAbsolutePath ++ "/" ++ resource.value) disk
    (r.1, r.2, entry1)
  else if resource.type = "marquee" then
    let entry1 := if entry.marqueeData.width ≥ 640 ∧ !config.noResize
      then { entry with marqueeData := host.scaledToWidth entry.marqueeData 640 } else entry
    let r := saveImage host (host.convertToFormat entry1.marqueeData)
      (dbAbsolutePath ++ "/" ++ resource.value) disk
    (r.1, r.2, entry1)
  else if resource.type = "video" then
    let r := writeFile host (dbAbsolutePath ++ "/" ++ resource.value) entry.videoData disk
    (r.1, r.2, entry)
  else (true, disk, entry)

/-- `LocalDb::addResource`.  The results are the store, the disk and the entry
(a reference parameter) afterwards. -/
def addResource (host : Host) (db : LocalDb) (disk : Disk) (resource : Resource)
    (entry : GameEntry) (dbAbsolutePath : String) (config : Settings) :
    LocalDb × Disk × GameEntry :=
  let scan := addResourceScan config.updateDb resource 0 db.resources
  let db1 := { db with resources := scan.1 }
  if scan.2 then
    let w := writePayload host resource entry dbAbsolutePath config disk
    if w.1 then ({ db1 with resources := db1.resources ++ [resource] }, w.2.1, w.2.2)
    else (db1, w.2.1, w.2.2)
  else (db1, disk, entry)

/-! ## `LocalDb::mergeDb` -/

/-- The condition of the inner loop of `mergeDb`: `x` has the `sha1` and `type` of
`srcResource`. -/
def samePair (x srcResource : Resource) : Prop :=
  x.sha1 = srcResource.sha1 ∧ x.type = srcResource.type

instance (x srcResource : Resource) : Decidable (samePair x srcResource) := by
  unfold samePair
  infer_instance

/-- The inner loop of `mergeDb` (`for(int a = 0; a < resources.length(); ++a)`),
entered at index `a`: a resource with the `sha1` and `type` of `srcResource` is
removed by `resources.removeAt(a)` when `overwrite` is set, else `resExists`
becomes true; the index is incremented after every pass.  The result is the list
and `resExists`. -/
def mergeScan (overwrite : Bool) (srcResource : Resource) (a : Nat)
    (resources : List Resource) (resExists : Bool) : List Resource × Bool :=
  if h : a < resources.length then
    if samePair resources[a] srcResource then
      if overwrite then mergeScan overwrite srcResource (a + 1) (resources.eraseIdx a) resExists
      else mergeScan overwrite srcResource (a + 1) resources true
    else mergeScan overwrite srcResource (a + 1) resources resExists
  else (resources, resExists)
termination_by resources.length - a
decreasing_by
  all_goals simp_wf
  all_goals (try rw [List.length_eraseIdx])
  all_goals (try simp [h])
  all_goals omega

/-- The variables `mergeDb` changes: the destination list, the disk and the two
counters. -/
structure MergeState where
  resources : List Resource
  disk : Disk
  resUpdated : Int
  resMerged : Int
deriving DecidableEq, Repr

/-- The body of the outer `foreach` of `mergeDb` for one `srcResource`. -/
def mergeResource (host : Host) (dbDir srcDbDir : String) (overwrite : Bool)
    (st : MergeState) (srcResource : Resource) : MergeState :=
  let scan := mergeScan overwrite srcResource 0 st.resources false
  let st1 := { st with resources := scan.1 }
  if !scan.2 then
    let c := if isBlobType srcResource.type
      then copyFile host (srcDbDir ++ "/" ++ srcResource.value)
        (dbDir ++ "/" ++ srcResource.value) st1.disk
      else (true, st1.disk)
    if !c.1 then st1
    else if overwrite then
      { resources := st1.resources ++ [srcResource], disk := c.2,
        resUpdated := st1.resUpdated + 1, resMerged := st1.resMerged }
    else
      { resources := st1.resources ++ [srcResource], disk := c.2,
        resUpdated := st1.resUpdated, resMerged := st1.resMerged + 1 }
  else st1

/-- `LocalDb::mergeDb`: `srcDb.getResources()` is folded into the destination;
`srcDbDir` stands for `QDir(srcDbFolder).absolutePath()`.  The result holds the
destination list, the disk and the two counters that are printed. -/
def mergeDb (host : Host) (db : LocalDb) (disk : Disk) (srcDb : LocalDb) (overwrite : Bool)
    (srcDbDir : String) : MergeState :=
  srcDb.resources.foldl (mergeResource host db.dbDir srcDbDir overwrite)
    { resources := db.resources, disk := disk, resUpdated := 0, resMerged := 0 }

/-- Whether the body of the outer loop of `mergeDb`, run for `srcResource` in
state `st`, reaches `resources.append(srcResource)`: the list it leaves is the
scanned list followed by `srcResource`. -/
def mergeAppends (host : Host) (dbDir srcDbDir : String) (overwrite : Bool)
    (st : MergeState) (srcResource : Resource) : Bool :=
  decide ((mergeResource host dbDir srcDbDir overwrite st srcResource).resources =
    (mergeScan overwrite srcResource 0 st.resources false).1 ++ [srcResource])

/-- The number of source resources that `mergeDb` appends when it processes
`srcResources` from state `st`. -/
def appendedCount (host : Host) (dbDir srcDbDir : String) (overwrite : Bool) :
    MergeState → List Resource → Int
  | _, [] => 0
  | st, srcResource :: rest =>
    (if mergeAppends host dbDir srcDbDir overwrite st srcResource then 1 else 0) +
      appendedCount host dbDir srcDbDir overwrite
        (mergeResource host dbDir srcDbDir overwrite st srcResource) rest

/-! ## `LocalDb::verifyFiles` and `LocalDb::cleanDb` -/

/-- The inner `foreach` of `verifyFiles`: `valid` for the file at `path`. -/
def fileValid (db : LocalDb) (resType : String) (path : String) : Bool :=
  db.resources.any (fun resource =>
    resource.type = resType ∧ fileName path = fileName (db.dbDir ++ "/" ++ resource.value))

/-- The variables `verifyFiles` changes: the disk and the two counters. -/
structure SweepState where
  disk : Disk
  filesDeleted : Int
  filesNoDelete : Int
deriving DecidableEq, Repr

/-- The body of the `while` loop of `verifyFiles` for the file `path`. -/
def verifyFile (host : Host) (db : LocalDb) (resType : String) (st : SweepState)
    (path : String) : SweepState :=
  if !fileValid db resType path then
    let r := removeFile host path st.disk
    if r.1 then { st with disk := r.2, filesDeleted := st.filesDeleted + 1 }
    else { st with disk := r.2, filesNoDelete := st.filesNoDelete + 1 }
  else st

/-- `LocalDb::verifyFiles`; `dirIt` is what the iterator yields. -/
def verifyFiles (host : Host) (db : LocalDb) (dirIt : List String) (st : SweepState)
    (resType : String) : SweepState :=
  dirIt.foldl (verifyFile host db resType) st

/-- `LocalDb::cleanDb`.  The result is the store, the disk and, unless the run was
cancelled, the counters `(filesDeleted, filesNoDelete)` that are reported. -/
def cleanDb (host : Host) (db : LocalDb) (disk : Disk) : LocalDb × Disk × Option (Int × Int) :=
  if !disk.hasFile (db.dbDir ++ "/db.xml") then (db, disk, none)
  else
    let coversDirIt := dirIterator disk (db.dbDir ++ "/covers")
    let screenshotsDirIt := dirIterator disk (db.dbDir ++ "/screenshots")
    let wheelsDirIt := dirIterator disk (db.dbDir ++ "/wheels")
    let marqueesDirIt := dirIterator disk (db.dbDir ++ "/marquees")
    let videosDirIt := dirIterator disk (db.dbDir ++ "/videos")
    let st0 : SweepState := { disk := disk, filesDeleted := 0, filesNoDelete := 0 }
    let st1 := verifyFiles host db coversDirIt st0 "cover"
    let st2 := verifyFiles host db screenshotsDirIt st1 "screenshot"
    let st3 := verifyFiles host db wheelsDirIt st2 "wheel"
    let st4 := verifyFiles host db marqueesDirIt st3 "marquee"
    let st5 := verifyFiles host db videosDirIt st4 "video"
    (db, st5.disk, some (st5.filesDeleted, st5.filesNoDelete))

/-! ## `LocalDb::readDb` -/

/-- One `resource` start element as the XML reader yields it: the attributes
`sha1`, `type`, `source` and `timestamp`, each present or not, and the element
text. -/
structure RawResource where
  sha1 : Option String
  type : Option String
  source : Option String
  timestamp : Option String
  text : String
deriving DecidableEq, Repr

/-- The reading side of the Qt calls: which files can be opened for reading,
what the XML reader yields for the text of `db.xml`, what `toULongLong` gives
for an attribute text, the `QImage` built from the contents of a file (`none`
when the file does not exist), and which paths name a directory that holds no
file. -/
structure Reader where
  readable : String → Bool
  parseIndex : String → List RawResource
  toULongLong : String → Nat
  loadImage : Option String → QImage
  emptyDirectory : String → Bool

/-- The path of a directory written with its closing slash. -/
def dirSlash (path : String) : String :=
  if path.data.getLast? = some '/' then path else path ++ "/"

/-- Whether `path` names a directory: one that holds a file of the disk, at any
depth, or an empty one. -/
def isDirectory (reader : Reader) (disk : Disk) (path : String) : Bool :=
  disk.files.any (fun f => (dirSlash path).data <+: f.1.data) || reader.emptyDirectory path

/-- `QFileInfo::exists(path)`: true for a file and for a directory. -/
def pathExists (reader : Reader) (disk : Disk) (path : String) : Bool :=
  disk.hasFile path || isDirectory reader disk path

/-- The conversion of a `qulonglong` to the `qint64` member `timestamp`. -/
def toInt64 (n : Nat) : Int :=
  if n % 2 ^ 64 < 2 ^ 63 then ((n % 2 ^ 64 : Nat) : Int)
  else ((n % 2 ^ 64 : Nat) : Int) - 2 ^ 64

/-- The body of the `while` loop of `readDb` for one `resource` element: every
`continue` leaves the list as it is. -/
def readRecord (reader : Reader) (db : LocalDb) (disk : Disk) (resources : List Resource)
    (raw : RawResource) : List Resource :=
  match raw.sha1 with
  | none => resources
  | some sha1 =>
    match raw.type with
    | none => resources
    | some type =>
      let source := match raw.source with
        | some s => s
        | none => "generic"
      match raw.timestamp with
      | none => resources
      | some ts =>
        let resource : Resource :=
          { sha1 := sha1, type := type, source := source, value := raw.text,
            timestamp := toInt64 (reader.toULongLong ts) }
        if isBlobType resource.type &&
            !pathExists reader disk (db.dbDir ++ "/" ++ resource.value)
        then resources
        else resources ++ [resource]

/-- `LocalDb::readDb`: the `bool` and the store afterwards. -/
def readDb (reader : Reader) (db : LocalDb) (disk : Disk) : Bool × LocalDb :=
  match disk.content (db.dbDir ++ "/db.xml") with
  | none => (false, db)
  | some text =>
    if reader.readable (db.dbDir ++ "/db.xml") then
      let resources := (reader.parseIndex text).foldl (readRecord reader db disk) db.resources
      (true, { db with resources := resources, resAtLoad := resources.length })
    else (false, db)

/-- The load rule in the words of the specification: a record is kept when it
has `sha1`, `type` and `timestamp` and, for a blob type, its text names an
existing file below the cache root; it is stored with its attributes and text,
the source `generic` standing in for a missing one. -/
def loadedRecord (reader : Reader) (db : LocalDb) (disk : Disk) (raw : RawResource) :
    Option Resource :=
  if raw.sha1.isSome ∧ raw.type.isSome ∧ raw.timestamp.isSome ∧
      (isBlobType (raw.type.getD "") = true → disk.hasFile (db.dbDir ++ "/" ++ raw.text) = true)
  then some { sha1 := raw.sha1.getD "", type := raw.type.getD "",
              source := raw.source.getD "generic", value := raw.text,
              timestamp := toInt64 (reader.toULongLong (raw.timestamp.getD "")) }
  else none

/-! ## `LocalDb::addResources` -/

/-- One `if` block of `addResources`: when the field is populated the resource
built for it is handed to `addResource`. -/
def addField (host : Host) (config : Settings) (dbAbsolutePath : String)
    (st : LocalDb × Disk × GameEntry) (populated : Bool) (resource : Resource) :
    LocalDb × Disk × GameEntry :=
  if populated then addResource host st.1 st.2.1 resource st.2.2 dbAbsolutePath config
  else st

/-- `LocalDb::addResources`.  `now` is `QDateTime::currentDateTime().toMSecsSinceEpoch()`.
The result is `none` when the function ends in `exit(1)`, else the store, the
disk and the entry afterwards. -/
def addResources (host : Host) (db : LocalDb) (disk : Disk) (entry : GameEntry)
    (config : Settings) (now : Int) : Option (LocalDb × Disk × GameEntry) :=
  let dbAbsolutePath := db.dbDir
  if entry.source = "" then none
  else if entry.sha1 ≠ "" then
    let resource : Resource :=
      { sha1 := entry.sha1, type := "", source := entry.source, value := "", timestamp := now }
    let st0 : LocalDb × Disk × GameEntry := (db, disk, entry)
    let st1 := addField host config dbAbsolutePath st0 (st0.2.2.title ≠ "")
      { resource with type := "title", value := st0.2.2.title }
    let st2 := addField host config dbAbsolutePath st1 (st1.2.2.platform ≠ "")
      { resource with type := "platform", value := st1.2.2.platform }
    let st3 := addField host config dbAbsolutePath st2 (st2.2.2.description ≠ "")
      { resource with type := "description", value := st2.2.2.description }
    let st4 := addField host config dbAbsolutePath st3 (st3.2.2.publisher ≠ "")
      { resource with type := "publisher", value := st3.2.2.publisher }
    let st5 := addField host config dbAbsolutePath st4 (st4.2.2.developer ≠ "")
      { resource with type := "developer", value := st4.2.2.developer }
    let st6 := addField host config dbAbsolutePath st5 (st5.2.2.players ≠ "")
      { resource with type := "players", value := st5.2.2.players }
    let st7 := addField host config dbAbsolutePath st6 (st6.2.2.tags ≠ "")
      { resource with type := "tags", value := st6.2.2.tags }
    let st8 := addField host config dbAbsolutePath st7 (st7.2.2.rating ≠ "")
      { resource with type := "rating", value := st7.2.2.rating }
    let st9 := addField host config dbAbsolutePath st8 (st8.2.2.releaseDate ≠ "")
      { resource with type := "releasedate", value := st8.2.2.releaseDate }
    let st10 := addField host config dbAbsolutePath st9
      (st9.2.2.videoData ≠ "" && st9.2.2.videoFormat ≠ "")
      { resource with type := "video",
                      value := "videos/" ++ st9.2.2.source ++ "/" ++ st9.2.2.sha1 ++ "." ++
                        st9.2.2.videoFormat }
    let st11 := addField host config dbAbsolutePath st10
      (!st10.2.2.coverData.isNull && config.cacheCovers)
      { resource with type := "cover",
                      value := "covers/" ++ st10.2.2.source ++ "/" ++ st10.2.2.sha1 ++ ".png" }
    let st12 := addField host config dbAbsolutePath st11
      (!st11.2.2.screenshotData.isNull && config.cacheScreenshots)
      { resource with type := "screenshot",
                      value := "screenshots/" ++ st11.2.2.source ++ "/" ++ st11.2.2.sha1 ++
                        ".png" }
    let st13 := addField host config dbAbsolutePath st12
      (!st12.2.2.wheelData.isNull && config.cacheWheels)
      { resource with type := "wheel",
                      value := "wheels/" ++ st12.2.2.source ++ "/" ++ st12.2.2.sha1 ++ ".png" }
    let st14 := addField host config dbAbsolutePath st13
      (!st13.2.2.marqueeData.isNull && config.cacheMarquees)
      { resource with type := "marquee",
                      value := "marquees/" ++ st13.2.2.source ++ "/" ++ st13.2.2.sha1 ++ ".png" }
    some st14
  else some (db, disk, entry)

/-- The resources a batch upsert of `entry` is to leave in an empty store, in
the words of the specification: one per non-empty scalar field, a video when
bytes and format are there, and an image for each kind that is present and
whose caching switch is on; every one with the identifier and source of the
item, the text of the field or the path `<kind directory>/<source>/<identifier>.<extension>`. -/
def populatedResources (entry : GameEntry) (config : Settings) (now : Int) : List Resource :=
  let scalar (type value : String) : List Resource :=
    if value ≠ "" then [⟨entry.sha1, type, entry.source, value, now⟩] else []
  let blob (present : Bool) (type dir ext : String) : List Resource :=
    if present then
      [⟨entry.sha1, type, entry.source, dir ++ "/" ++ entry.source ++ "/" ++ entry.sha1 ++ "." ++ ext,
        now⟩]
    else []
  scalar "title" entry.title ++ scalar "platform" entry.platform ++
  scalar "description" entry.description ++ scalar "publisher" entry.publisher ++
  scalar "developer" entry.developer ++ scalar "players" entry.players ++
  scalar "tags" entry.tags ++ scalar "rating" entry.rating ++
  scalar "releasedate" entry.releaseDate ++
  blob (entry.videoData ≠ "" && entry.videoFormat ≠ "") "video" "videos" entry.videoFormat ++
  blob (!entry.coverData.isNull && config.cacheCovers) "cover" "covers" "png" ++
  blob (!entry.screenshotData.isNull && config.cacheScreenshots) "screenshot" "screenshots" "png" ++
  blob (!entry.wheelData.isNull && config.cacheWheels) "wheel" "wheels" "png" ++
  blob (!entry.marqueeData.isNull && config.cacheMarquees) "marquee" "marquees" "png"

/-- No two resources of the list share `sha1`, `type` and `source`. -/
def tripleUnique (resources : List Resource) : Prop :=
  resources.Pairwise (fun x y => ¬ sameTriple x y)

/-- Upserts run one after the other, as the store-wide lock makes them: each
element is a candidate with the entry it belongs to. -/
def addResourceSeq (host : Host) (config : Settings) (dbAbsolutePath : String)
    (db : LocalDb) (disk : Disk) (upserts : List (Resource × GameEntry)) : LocalDb × Disk :=
  upserts.foldl (fun st u =>
    let r := addResource host st.1 st.2 u.1 u.2 dbAbsolutePath config
    (r.1, r.2.1)) (db, disk)


/-! ## `LocalDb::fillBlanks` -/

/-- `QFileInfo(path).suffix()`: what follows the last dot of the file name, empty
when the file name has no dot. -/
def suffix (path : String) : String :=
  let name := (fileName path).data
  if '.' ∈ name then ⟨(name.reverse.takeWhile (fun c => c ≠ '.')).reverse⟩ else ""

/-- The first loop of `fillBlanks`: the resources of the item, of every source
when `scraper` is empty, else of the source `scraper` only. -/
def matchingResources (db : LocalDb) (sha1 : String) (scraper : String) : List Resource :=
  db.resources.filter (fun resource =>
    if scraper = "" then decide (sha1 = resource.sha1)
    else decide (sha1 = resource.sha1 ∧ resource.source = scraper))

/-- One block of `fillBlanks`: `fillType` is called with empty `result` and
`source`, and when it returns true `assign` stores the two into the entry. -/
def fillStep (db : LocalDb) (matching : List Resource) (type : String)
    (assign : GameEntry → String → String → GameEntry) (entry : GameEntry) : GameEntry :=
  let r := fillType db type matching "" ""
  if r.1 then assign entry r.2.1 r.2.2 else entry

/-- The assignment of the `video` block: the file is read when it can be opened,
else the entry stays as it is. -/
def assignVideo (reader : Reader) (db : LocalDb) (disk : Disk) (entry : GameEntry)
    (result source : String) : GameEntry :=
  match disk.content (db.dbDir ++ "/" ++ result) with
  | none => entry
  | some data =>
    if reader.readable (db.dbDir ++ "/" ++ result) then
      { entry with videoData := data, videoFormat := suffix (db.dbDir ++ "/" ++ result),
                   videoSrc := source }
    else entry

/-- `LocalDb::fillBlanks`: the store and the entry afterwards. -/
def fillBlanks (reader : Reader) (db : LocalDb) (disk : Disk) (entry : GameEntry)
    (scraper : String) : LocalDb × GameEntry :=
  let matching := matchingResources db entry.sha1 scraper
  let e1 := fillStep db matching "title"
    (fun e result source => { e with title := result, titleSrc := source }) entry
  let e2 := fillStep db matching "platform"
    (fun e result source => { e with platform := result, platformSrc := source }) e1
  let e3 := fillStep db matching "description"
    (fun e result source => { e with description := result, descriptionSrc := source }) e2
  let e4 := fillStep db matching "publisher"
    (fun e result source => { e with publisher := result, publisherSrc := source }) e3
  let e5 := fillStep db matching "developer"
    (fun e result source => { e with developer := result, developerSrc := source }) e4
  let e6 := fillStep db matching "players"
    (fun e result source => { e with players := result, playersSrc := source }) e5
  let e7 := fillStep db matching "tags"
    (fun e result source => { e with tags := result, tagsSrc := source }) e6
  let e8 := fillStep db matching "rating"
    (fun e result source => { e with rating := result, ratingSrc := source }) e7
  let e9 := fillStep db matching "releasedate"
    (fun e result source => { e with releaseDate := result, releaseDateSrc := source }) e8
  let e10 := fillStep db matching "cover"
    (fun e result source =>
      { e with coverData := reader.loadImage (disk.content (db.dbDir ++ "/" ++ result)),
               coverSrc := source }) e9
  let e11 := fillStep db matching "screenshot"
    (fun e result source =>
      { e with screenshotData := reader.loadImage (disk.content (db.dbDir ++ "/" ++ result)),
               screenshotSrc := source }) e10
  let e12 := fillStep db matching "wheel"
    (fun e result source =>
      { e with wheelData := reader.loadImage (disk.content (db.dbDir ++ "/" ++ result)),
               wheelSrc := source }) e11
  let e13 := fillStep db matching "marquee"
    (fun e result source =>
      { e with marqueeData := reader.loadImage (disk.content (db.dbDir ++ "/" ++ result)),
               marqueeSrc := source }) e12
  let e14 := fillStep db matching "video" (assignVideo reader db disk) e13
  (db, e14)


/-! ## The blob directories -/

/-- The directory below the cache root that belongs to a blob type: the one
`cleanDb` sweeps for the type and in which `addResources` puts its files. -/
def kindDir (type : String) : String :=
  if type = "cover" then "covers"
  else if type = "screenshot" then "screenshots"
  else if type = "wheel" then "wheels"
  else if type = "marquee" then "marquees"
  else if type = "video" then "videos"
  else ""

/-- The five blob types, in the order `cleanDb` sweeps them. -/
def blobTypes : List String :=
  ["cover", "screenshot", "wheel", "marquee", "video"]


/-! ## Sample data for the concrete instances -/

/-- A host on which every write, copy and removal works and images are left as
they are. -/
def sampleHost : Host :=
  { writable := fun _ => true, writes := fun _ _ => true, removable := fun _ => true,
    imageSaves := fun _ _ => true,
    imageBytes := fun image => image.pixels, convertToFormat := fun image => image,
    scaledToHeight := fun image _ => image, scaledToWidth := fun image _ => image }

/-- A host on which nothing can be written or removed. -/
def lockedHost : Host :=
  { sampleHost with writable := fun _ => false, removable := fun _ => false,
                    imageSaves := fun _ _ => false }

/-- A host with a full disk: files can be opened for writing, but no data can be
written and no image saved. -/
def fullDiskHost : Host :=
  { sampleHost with writes := fun _ _ => false, imageSaves := fun _ _ => false }

/-- The null `QImage`. -/
def nullImage : QImage :=
  { isNull := true, width := 0, height := 0, pixels := "" }

/-- An item of source `A` with a title and nothing else. -/
def sampleEntry : GameEntry :=
  { sha1 := "id1", source := "A", title := "Title", titleSrc := "",
    platform := "", platformSrc := "", description := "", descriptionSrc := "",
    publisher := "", publisherSrc := "", developer := "", developerSrc := "",
    players := "", playersSrc := "", tags := "", tagsSrc := "", rating := "", ratingSrc := "",
    releaseDate := "", releaseDateSrc := "", coverData := nullImage, coverSrc := "",
    screenshotData := nullImage, screenshotSrc := "", wheelData := nullImage, wheelSrc := "",
    marqueeData := nullImage, marqueeSrc := "", videoData := "", videoFormat := "",
    videoSrc := "" }

/-- An item of source `A` with the bytes of an `mp4` video. -/
def videoEntry : GameEntry :=
  { sampleEntry with videoData := "bytes", videoFormat := "mp4" }

/-- An item of source `A` with a cover of ten by ten pixels. -/
def coverEntry : GameEntry :=
  { sampleEntry with coverData := ⟨false, 10, 10, "px"⟩ }

/-- Settings with every switch off. -/
def keepSettings : Settings :=
  { updateDb := false, noResize := false, cacheCovers := false, cacheScreenshots := false,
    cacheWheels := false, cacheMarquees := false }

/-- Settings with `updateDb` on. -/
def updateSettings : Settings :=
  { keepSettings with updateDb := true }

/-- Five `resource` elements: a complete title, a title without source, a cover
whose file is missing, a record without `sha1` and one without `timestamp`. -/
def sampleRecords : List RawResource :=
  [ { sha1 := some "id1", type := some "title", source := some "A", timestamp := some "7",
      text := "Title" },
    { sha1 := some "id1", type := some "platform", source := none, timestamp := some "8",
      text := "Amiga" },
    { sha1 := some "id1", type := some "cover", source := some "A", timestamp := some "9",
      text := "covers/A/id1.png" },
    { sha1 := none, type := some "title", source := some "A", timestamp := some "7",
      text := "Lost" },
    { sha1 := some "id2", type := some "title", source := some "A", timestamp := none,
      text := "Undated" } ]

/-- A reader for which every file opens, `db.xml` holds `sampleRecords`, a
timestamp is read digit by digit and images decode to the null image. -/
def sampleReader : Reader :=
  { readable := fun _ => true, parseIndex := fun _ => sampleRecords,
    toULongLong := fun s => s.data.foldl (fun n c => 10 * n + (c.toNat - 48)) 0,
    loadImage := fun _ => nullImage, emptyDirectory := fun _ => false }

/-- The reader of a `db.xml` that holds one cover record with an empty body. -/
def emptyBodyReader : Reader :=
  { sampleReader with
    parseIndex := fun _ =>
      [ { sha1 := some "id1", type := some "cover", source := some "A",
          timestamp := some "9", text := "" } ] }


/-! ## Theorems: `fillType` -/

theorem prioScan_eq_none (typeRes : List Resource) (prios : List String)
    (h : ∀ x ∈ typeRes, x.source ∉ prios) : prioScan typeRes prios = none := by
  induction prios with
  | nil => rfl
  | cons p ps ih =>
    have hf : typeRes.find? (fun resource => decide (resource.source = p)) = none := by
      rw [List.find?_eq_none]
      intro x hx
      have := h x hx
      simp only [List.mem_cons, not_or] at this
      simpa using this.1
    simp only [prioScan, hf]
    exact ih (fun x hx hm => h x hx (List.mem_cons_of_mem _ hm))

theorem prioScan_first (typeRes : List Resource) (prios : List String)
    (h : ∃ x ∈ typeRes, x.source ∈ prios) :
    ∃ pre p post r, prios = pre ++ p :: post ∧
      (∀ q ∈ pre, ∀ x ∈ typeRes, x.source ≠ q) ∧
      typeRes.find? (fun resource => decide (resource.source = p)) = some r ∧
      prioScan typeRes prios = some (r.value, r.source) := by
  induction prios with
  | nil =>
    obtain ⟨x, _, hx⟩ := h
    simp at hx
  | cons p ps ih =>
    cases hf : typeRes.find? (fun resource => decide (resource.source = p)) with
    | some r =>
      exact ⟨[], p, ps, r, rfl, by simp, hf, by simp only [prioScan, hf]⟩
    | none =>
      have hnone : ∀ x ∈ typeRes, x.source ≠ p := by
        intro x hx
        have := (List.find?_eq_none.mp hf) x hx
        simpa using this
      have h2 : ∃ x ∈ typeRes, x.source ∈ ps := by
        obtain ⟨x, hx, hm⟩ := h
        rcases List.mem_cons.mp hm with hxp | hxp
        · exact absurd hxp (hnone x hx)
        · exact ⟨x, hx, hxp⟩
      obtain ⟨pre, q, post, r, hsplit, hpre, hfind, hscan⟩ := ih h2
      refine ⟨p :: pre, q, post, r, by simp [hsplit], ?_, hfind, ?_⟩
      · intro q2 hq2 x hx
        rcases List.mem_cons.mp hq2 with hq | hq
        · subst hq
          exact hnone x hx
        · exact hpre q2 hq x hx
      · simp only [prioScan, hf, hscan]

theorem find_typeResources (type p : String) (ms : List Resource) (r : Resource)
    (h : (typeResources type ms).find? (fun x => decide (x.source = p)) = some r) :
    ∃ front back, ms = front ++ r :: back ∧ r.type = type ∧ r.source = p ∧
      ∀ x ∈ front, x.type = type → x.source ≠ p := by
  unfold typeResources at h
  rw [List.find?_filter, List.find?_eq_some] at h
  obtain ⟨hr, front, back, hms, hfront⟩ := h
  simp only [Bool.and_eq_true, decide_eq_true_eq] at hr
  refine ⟨front, back, hms, hr.1, hr.2, ?_⟩
  intro x hx hxt hxs
  have := hfront x hx
  simp [hxt, hxs] at this

theorem mem_typeResources (type : String) (ms : List Resource) (x : Resource) :
    x ∈ typeResources type ms ↔ x ∈ ms ∧ x.type = type := by
  simp [typeResources]

/-- The last loop of `fillType` on a non-empty list of non-negative timestamps
ends on the last resource that carries the greatest timestamp. -/
theorem newestScan_last_max (l : List Resource) (result source : String)
    (hne : l ≠ []) (hts : ∀ x ∈ l, 0 ≤ x.timestamp) :
    ∃ front r back, l = front ++ r :: back ∧
      (∀ x ∈ front, x.timestamp ≤ r.timestamp) ∧
      (∀ x ∈ back, x.timestamp < r.timestamp) ∧
      newestScan l result source = (r.timestamp, r.value, r.source) := by
  induction l using List.reverseRecOn with
  | nil => exact absurd rfl hne
  | append_singleton l x ih =>
    have hx0 : 0 ≤ x.timestamp := hts x (by simp)
    by_cases hl : l = []
    · subst hl
      refine ⟨[], x, [], by simp, by simp, by simp, ?_⟩
      simp [newestScan, newestStep, hx0]
    · obtain ⟨front, r, back, hsplit, hfront, hback, hscan⟩ :=
        ih hl (fun y hy => hts y (by simp [hy]))
      have hfold : newestScan (l ++ [x]) result source =
          newestStep (newestScan l result source) x := by
        simp [newestScan, List.foldl_append]
      by_cases hge : x.timestamp ≥ r.timestamp
      · refine ⟨l, x, [], rfl, ?_, by simp, ?_⟩
        · intro y hy
          rw [hsplit] at hy
          rcases List.mem_append.mp hy with hy | hy
          · exact le_trans (hfront y hy) hge
          · rcases List.mem_cons.mp hy with hy | hy
            · rw [hy]; exact hge
            · exact le_trans (le_of_lt (hback y hy)) hge
        · rw [hfold, hscan]
          simp [newestStep, hge]
      · refine ⟨front, r, back ++ [x], by simp [hsplit], hfront, ?_, ?_⟩
        · intro y hy
          rcases List.mem_append.mp hy with hy | hy
          · exact hback y hy
          · simp at hy
            rw [hy]
            exact lt_of_not_ge hge
        · rw [hfold, hscan]
          simp [newestStep, hge]

/-- C1 (resolve by priority).  When the requested type has a priority list and
some candidate of that type comes from a listed source, `fillType` returns true
with the value and source of the first candidate of that type (in scan order)
whose source is the earliest priority entry for which a candidate of that type
exists; timestamps play no part. -/
theorem fillType_priority (db : LocalDb) (type : String) (ms : List Resource)
    (result source : String) (prios : List String)
    (hprio : db.prioMap.lookup type = some prios)
    (hcand : ∃ x ∈ ms, x.type = type ∧ x.source ∈ prios) :
    ∃ pre p post front r back,
      prios = pre ++ p :: post ∧
      (∀ q ∈ pre, ∀ x ∈ ms, x.type = type → x.source ≠ q) ∧
      ms = front ++ r :: back ∧ r.type = type ∧ r.source = p ∧
      (∀ x ∈ front, x.type = type → x.source ≠ p) ∧
      fillType db type ms result source = (true, r.value, r.source) := by
  have h1 : ∃ x ∈ typeResources type ms, x.source ∈ prios := by
    obtain ⟨x, hx, hxt, hxs⟩ := hcand
    exact ⟨x, (mem_typeResources type ms x).mpr ⟨hx, hxt⟩, hxs⟩
  obtain ⟨pre, p, post, r, hsplit, hpre, hfind, hscan⟩ := prioScan_first _ _ h1
  obtain ⟨front, back, hms, hrt, hrs, hfront⟩ := find_typeResources type p ms r hfind
  refine ⟨pre, p, post, front, r, back, hsplit, ?_, hms, hrt, hrs, hfront, ?_⟩
  · intro q hq x hx hxt
    exact hpre q hq x ((mem_typeResources type ms x).mpr ⟨hx, hxt⟩)
  · have hne : (typeResources type ms).isEmpty = false := by
      obtain ⟨x, hx, _⟩ := h1
      cases hl : typeResources type ms with
      | nil => rw [hl] at hx; simp at hx
      | cons a l => rfl
    simp [fillType, hne, PrioMap.contains, PrioMap.value, hprio, hscan]

/-- C1, witness: priority `[B, A]` for `title`, a candidate of `A` with timestamp
100 and one of `B` with timestamp 50; the result is the value of `B`. -/
theorem fillType_priority_witness :
    fillType ⟨"/db", [], [("title", ["B", "A"])], 0⟩ "title"
        [⟨"h", "title", "A", "va", 100⟩, ⟨"h", "title", "B", "vb", 50⟩] "" "" = (true, "vb", "B") ∧
    ∃ pre p post front r back,
      ["B", "A"] = pre ++ p :: post ∧
      (∀ q ∈ pre, ∀ x ∈ [(⟨"h", "title", "A", "va", 100⟩ : Resource), ⟨"h", "title", "B", "vb", 50⟩],
        x.type = "title" → x.source ≠ q) ∧
      [(⟨"h", "title", "A", "va", 100⟩ : Resource), ⟨"h", "title", "B", "vb", 50⟩] =
        front ++ r :: back ∧ r.type = "title" ∧ r.source = p ∧
      (∀ x ∈ front, x.type = "title" → x.source ≠ p) ∧
      fillType ⟨"/db", [], [("title", ["B", "A"])], 0⟩ "title"
        [⟨"h", "title", "A", "va", 100⟩, ⟨"h", "title", "B", "vb", 50⟩] "" "" =
        (true, r.value, r.source) :=
  ⟨by decide,
    fillType_priority ⟨"/db", [], [("title", ["B", "A"])], 0⟩ "title"
      [⟨"h", "title", "A", "va", 100⟩, ⟨"h", "title", "B", "vb", 50⟩] "" "" ["B", "A"]
      (by decide) ⟨⟨"h", "title", "B", "vb", 50⟩, by decide, by decide, by decide⟩⟩

/-- C2 (resolve by timestamp).  When some candidate has the requested type, the
candidates of that type have non-negative timestamps, and the type has no
priority list or no candidate of that type comes from a listed source,
`fillType` returns true with the value and source of the candidate of that type
whose timestamp is greatest, the last one in scan order among those sharing
it. -/
theorem fillType_newest (db : LocalDb) (type : String) (ms : List Resource)
    (result source : String)
    (hne : ∃ x ∈ ms, x.type = type)
    (hts : ∀ x ∈ ms, x.type = type → 0 ≤ x.timestamp)
    (hprio : db.prioMap.lookup type = none ∨
      ∀ x ∈ ms, x.type = type → x.source ∉ db.prioMap.value type) :
    ∃ front r back,
      ms = front ++ r :: back ∧ r.type = type ∧
      (∀ x ∈ front, x.type = type → x.timestamp ≤ r.timestamp) ∧
      (∀ x ∈ back, x.type = type → x.timestamp < r.timestamp) ∧
      fillType db type ms result source = (true, r.value, r.source) := by
  have hne2 : typeResources type ms ≠ [] := by
    obtain ⟨x, hx, hxt⟩ := hne
    intro hnil
    have := (mem_typeResources type ms x).mpr ⟨hx, hxt⟩
    rw [hnil] at this
    simp at this
  have hts2 : ∀ x ∈ typeResources type ms, 0 ≤ x.timestamp := by
    intro x hx
    obtain ⟨h1, h2⟩ := (mem_typeResources type ms x).mp hx
    exact hts x h1 h2
  obtain ⟨f, r, b, hsplit, hf, hb, hscan⟩ :=
    newestScan_last_max (typeResources type ms) result source hne2 hts2
  have hsplit2 := hsplit
  unfold typeResources at hsplit2
  rw [List.filter_eq_append_iff] at hsplit2
  obtain ⟨l1, l2, hms, hl1, hl2⟩ := hsplit2
  rw [List.filter_eq_cons_iff] at hl2
  obtain ⟨m1, m2, hl2s, hm1, hr, hm2⟩ := hl2
  simp only [decide_eq_true_eq] at hr hm1
  refine ⟨l1 ++ m1, r, m2, by simp [hms, hl2s], hr, ?_, ?_, ?_⟩
  · intro x hx hxt
    rcases List.mem_append.mp hx with hx | hx
    · exact hf x (by rw [← hl1]; simp [hx, hxt])
    · exact absurd hxt (hm1 x hx)
  · intro x hx hxt
    exact hb x (by rw [← hm2]; simp [hx, hxt])
  · have hempty : (typeResources type ms).isEmpty = false := by
      cases hl : typeResources type ms with
      | nil => exact absurd hl hne2
      | cons a l => rfl
    have hnone : (if db.prioMap.contains type
        then prioScan (typeResources type ms) (db.prioMap.value type) else none) = none := by
      rcases hprio with h | h
      · simp [PrioMap.contains, h]
      · split
        · apply prioScan_eq_none
          intro x hx
          obtain ⟨h1, h2⟩ := (mem_typeResources type ms x).mp hx
          exact h x h1 h2
        · rfl
    simp only [fillType, hempty, hnone, hscan]
    simp

/-- C2, witness: two `description` candidates `X` then `Y`, both with timestamp
100 and no priority entry; the result is the value of `Y`. -/
theorem fillType_newest_witness :
    fillType ⟨"/db", [], [], 0⟩ "description"
        [⟨"h", "description", "X", "vx", 100⟩, ⟨"h", "description", "Y", "vy", 100⟩] "" "" =
      (true, "vy", "Y") ∧
    ∃ front r back,
      [(⟨"h", "description", "X", "vx", 100⟩ : Resource), ⟨"h", "description", "Y", "vy", 100⟩] =
        front ++ r :: back ∧ r.type = "description" ∧
      (∀ x ∈ front, x.type = "description" → x.timestamp ≤ r.timestamp) ∧
      (∀ x ∈ back, x.type = "description" → x.timestamp < r.timestamp) ∧
      fillType ⟨"/db", [], [], 0⟩ "description"
        [⟨"h", "description", "X", "vx", 100⟩, ⟨"h", "description", "Y", "vy", 100⟩] "" "" =
        (true, r.value, r.source) :=
  ⟨by decide,
    fillType_newest ⟨"/db", [], [], 0⟩ "description"
      [⟨"h", "description", "X", "vx", 100⟩, ⟨"h", "description", "Y", "vy", 100⟩] "" ""
      ⟨⟨"h", "description", "X", "vx", 100⟩, by decide, by decide⟩
      (by decide) (Or.inl (by decide))⟩

/-! ## Theorems: `addResource` -/

theorem getElem_append_cons_length {α : Type} (pre : List α) (x : α) (xs : List α)
    (h : pre.length < (pre ++ x :: xs).length) : (pre ++ x :: xs)[pre.length] = x := by
  rw [List.getElem_append_right (Nat.le_refl _)]
  simp

theorem eraseIdx_append_cons_length {α : Type} (pre : List α) (x : α) (xs : List α) :
    (pre ++ x :: xs).eraseIdx pre.length = pre ++ xs := by
  rw [List.eraseIdx_append_of_length_le (Nat.le_refl _)]
  simp

theorem addResourceScan_none (updateDb : Bool) (resource : Resource)
    (pre rest : List Resource) (h : ∀ x ∈ rest, ¬ sameTriple x resource) :
    addResourceScan updateDb resource pre.length (pre ++ rest) = (pre ++ rest, true) := by
  induction rest generalizing pre with
  | nil =>
    rw [addResourceScan]
    simp
  | cons x xs ih =>
    rw [addResourceScan]
    have hx : ¬ sameTriple x resource := h x (by simp)
    have := ih (pre ++ [x]) (fun y hy => h y (by simp [hy]))
    simp only [List.length_append, List.length_singleton, List.append_assoc,
      List.singleton_append] at this
    simp [hx, this, getElem_append_cons_length]

theorem addResourceScan_first (updateDb : Bool) (resource : Resource)
    (pre front : List Resource) (old : Resource) (back : List Resource)
    (hfront : ∀ x ∈ front, ¬ sameTriple x resource) (hold : sameTriple old resource) :
    addResourceScan updateDb resource pre.length (pre ++ (front ++ old :: back)) =
      if updateDb then (pre ++ (front ++ back), true)
      else (pre ++ (front ++ old :: back), false) := by
  induction front generalizing pre with
  | nil =>
    rw [addResourceScan]
    cases updateDb <;>
      simp [hold, getElem_append_cons_length, eraseIdx_append_cons_length]
  | cons x xs ih =>
    rw [addResourceScan]
    have hx : ¬ sameTriple x resource := hfront x (by simp)
    have := ih (pre ++ [x]) (fun y hy => hfront y (by simp [hy]))
    simp only [List.length_append, List.length_singleton, List.append_assoc,
      List.singleton_append] at this
    simp [hx, this, getElem_append_cons_length]

theorem exists_first_match {α : Type} (p : α → Prop) [DecidablePred p] (l : List α)
    (h : ∃ x ∈ l, p x) :
    ∃ front old back, l = front ++ old :: back ∧ p old ∧ ∀ x ∈ front, ¬ p x := by
  induction l with
  | nil =>
    obtain ⟨x, hx, _⟩ := h
    simp at hx
  | cons a l ih =>
    by_cases ha : p a
    · exact ⟨[], a, l, rfl, ha, by simp⟩
    · have h2 : ∃ x ∈ l, p x := by
        obtain ⟨x, hx, hpx⟩ := h
        rcases List.mem_cons.mp hx with hxa | hxl
        · subst hxa
          exact absurd hpx ha
        · exact ⟨x, hxl, hpx⟩
      obtain ⟨front, old, back, hl, hold, hfront⟩ := ih h2
      refine ⟨a :: front, old, back, by simp [hl], hold, ?_⟩
      intro x hx
      rcases List.mem_cons.mp hx with hxa | hxf
      · subst hxa
        exact ha
      · exact hfront x hxf

theorem addResourceScan_of_mem (updateDb : Bool) (resource : Resource)
    (resources : List Resource) (hex : ∃ x ∈ resources, sameTriple x resource) :
    ∃ front old back, resources = front ++ old :: back ∧ sameTriple old resource ∧
      (∀ x ∈ front, ¬ sameTriple x resource) ∧
      addResourceScan updateDb resource 0 resources =
        if updateDb then (front ++ back, true) else (resources, false) := by
  obtain ⟨front, old, back, hl, hold, hfront⟩ :=
    exists_first_match (fun x => sameTriple x resource) resources hex
  refine ⟨front, old, back, hl, hold, hfront, ?_⟩
  have := addResourceScan_first updateDb resource [] front old back hfront hold
  simp only [List.length_nil, List.nil_append] at this
  rw [hl, this]

/-- C3 (upsert idempotence).  With `updateDb` off: when the store already holds a
resource with the candidate's `sha1`, `type` and `source`, `addResource` returns
the store, the disk and the entry exactly as they were (no blob is written);
and when the candidate is in the store after a first `addResource` (it was there
already, or its payload was written), a second `addResource` of the same
candidate changes nothing of what the first one left. -/
theorem addResource_idempotent (host : Host) (db : LocalDb) (disk : Disk)
    (resource : Resource) (entry : GameEntry) (dbAbsolutePath : String) (config : Settings)
    (hcfg : config.updateDb = false) :
    ((∃ x ∈ db.resources, sameTriple x resource) →
      addResource host db disk resource entry dbAbsolutePath config = (db, disk, entry)) ∧
    (((∃ x ∈ db.resources, sameTriple x resource) ∨
        (writePayload host resource entry dbAbsolutePath config disk).1 = true) →
      addResource host
          (addResource host db disk resource entry dbAbsolutePath config).1
          (addResource host db disk resource entry dbAbsolutePath config).2.1
          resource
          (addResource host db disk resource entry dbAbsolutePath config).2.2
          dbAbsolutePath config =
        addResource host db disk resource entry dbAbsolutePath config) := by
  have keep : ∀ (db : LocalDb) (disk : Disk) (entry : GameEntry),
      (∃ x ∈ db.resources, sameTriple x resource) →
      addResource host db disk resource entry dbAbsolutePath config = (db, disk, entry) := by
    intro db disk entry hex
    obtain ⟨front, old, back, _, _, _, hscan⟩ :=
      addResourceScan_of_mem config.updateDb resource db.resources hex
    rw [hcfg] at hscan
    simp only [Bool.false_eq_true, if_false] at hscan
    simp [addResource, hscan, hcfg]
  refine ⟨keep db disk entry, ?_⟩
  intro h
  have hmem : ∃ x ∈ (addResource host db disk resource entry dbAbsolutePath config).1.resources,
      sameTriple x resource := by
    by_cases hex : ∃ x ∈ db.resources, sameTriple x resource
    · rw [keep db disk entry hex]
      exact hex
    · have hw : (writePayload host resource entry dbAbsolutePath config disk).1 = true := by
        rcases h with h | h
        · exact absurd h hex
        · exact h
      have hnone : ∀ x ∈ db.resources, ¬ sameTriple x resource := by
        intro x hx hs
        exact hex ⟨x, hx, hs⟩
      have hscan := addResourceScan_none config.updateDb resource [] db.resources hnone
      simp only [List.length_nil, List.nil_append] at hscan
      refine ⟨resource, ?_, rfl, rfl, rfl⟩
      rw [hcfg] at hscan
      simp [addResource, hscan, hw, hcfg]
  have := keep (addResource host db disk resource entry dbAbsolutePath config).1
    (addResource host db disk resource entry dbAbsolutePath config).2.1
    (addResource host db disk resource entry dbAbsolutePath config).2.2 hmem
  rw [this]

/-- C3, instance: a store holding the title of `id1` from source `A`; upserting
another title for the same triple with `updateDb` off changes nothing. -/
theorem addResource_idempotent_witness :
    addResource sampleHost ⟨"/db", [⟨"id1", "title", "A", "Old", 1⟩], [], 0⟩ ⟨[]⟩
        ⟨"id1", "title", "A", "Title", 2⟩ sampleEntry "/db" keepSettings =
      (⟨"/db", [⟨"id1", "title", "A", "Old", 1⟩], [], 0⟩, ⟨[]⟩, sampleEntry) :=
  (addResource_idempotent sampleHost ⟨"/db", [⟨"id1", "title", "A", "Old", 1⟩], [], 0⟩ ⟨[]⟩
      ⟨"id1", "title", "A", "Title", 2⟩ sampleEntry "/db" keepSettings rfl).1
    ⟨⟨"id1", "title", "A", "Old", 1⟩, by decide, by decide⟩

/-- C4 (upsert replace).  With `updateDb` on, the store holding a resource with
the candidate's `sha1`, `type` and `source`, and the payload write succeeding,
the list after `addResource` is the old list without the first resource of that
triple, followed by the candidate; the other resources keep their order. -/
theorem addResource_replaces (host : Host) (db : LocalDb) (disk : Disk)
    (resource : Resource) (entry : GameEntry) (dbAbsolutePath : String) (config : Settings)
    (hcfg : config.updateDb = true)
    (hex : ∃ x ∈ db.resources, sameTriple x resource)
    (hw : (writePayload host resource entry dbAbsolutePath config disk).1 = true) :
    ∃ front old back, db.resources = front ++ old :: back ∧ sameTriple old resource ∧
      (∀ x ∈ front, ¬ sameTriple x resource) ∧
      (addResource host db disk resource entry dbAbsolutePath config).1.resources =
        front ++ back ++ [resource] := by
  obtain ⟨front, old, back, hl, hold, hfront, hscan⟩ :=
    addResourceScan_of_mem config.updateDb resource db.resources hex
  refine ⟨front, old, back, hl, hold, hfront, ?_⟩
  rw [hcfg] at hscan
  simp only [if_true] at hscan
  simp [addResource, hscan, hcfg, hw]

/-- C4, instance: the old title of `(id1, title, A)` sits between two other
resources; after the replacing upsert the two keep their order and the new
title is last. -/
theorem addResource_replaces_witness :
    addResource sampleHost
        ⟨"/db", [⟨"id0", "title", "A", "Zero", 1⟩, ⟨"id1", "title", "A", "Old", 1⟩,
          ⟨"id1", "title", "B", "Other", 1⟩], [], 0⟩ ⟨[]⟩
        ⟨"id1", "title", "A", "Title", 2⟩ sampleEntry "/db" updateSettings =
      (⟨"/db", [⟨"id0", "title", "A", "Zero", 1⟩, ⟨"id1", "title", "B", "Other", 1⟩,
          ⟨"id1", "title", "A", "Title", 2⟩], [], 0⟩, ⟨[]⟩, sampleEntry) ∧
    ∃ front old back,
      [(⟨"id0", "title", "A", "Zero", 1⟩ : Resource), ⟨"id1", "title", "A", "Old", 1⟩,
          ⟨"id1", "title", "B", "Other", 1⟩] = front ++ old :: back ∧
      sameTriple old ⟨"id1", "title", "A", "Title", 2⟩ ∧
      (∀ x ∈ front, ¬ sameTriple x ⟨"id1", "title", "A", "Title", 2⟩) ∧
      (addResource sampleHost
        ⟨"/db", [⟨"id0", "title", "A", "Zero", 1⟩, ⟨"id1", "title", "A", "Old", 1⟩,
          ⟨"id1", "title", "B", "Other", 1⟩], [], 0⟩ ⟨[]⟩
        ⟨"id1", "title", "A", "Title", 2⟩ sampleEntry "/db" updateSettings).1.resources =
        front ++ back ++ [⟨"id1", "title", "A", "Title", 2⟩] :=
  ⟨by simp [addResource, addResourceScan, sameTriple, writePayload, updateSettings, keepSettings],
    addResource_replaces sampleHost
      ⟨"/db", [⟨"id0", "title", "A", "Zero", 1⟩, ⟨"id1", "title", "A", "Old", 1⟩,
        ⟨"id1", "title", "B", "Other", 1⟩], [], 0⟩ ⟨[]⟩
      ⟨"id1", "title", "A", "Title", 2⟩ sampleEntry "/db" updateSettings rfl
      ⟨⟨"id1", "title", "A", "Old", 1⟩, by decide, by decide⟩ (by decide)⟩

/-! ## Theorems: `mergeDb` -/

theorem mergeScan_of_length_le (overwrite : Bool) (s : Resource) (a : Nat)
    (resources : List Resource) (e : Bool) (h : resources.length ≤ a) :
    mergeScan overwrite s a resources e = (resources, e) := by
  rw [mergeScan]
  simp [Nat.not_lt.mpr h]

theorem mergeScan_none (overwrite : Bool) (s : Resource) (pre rest : List Resource) (e : Bool)
    (h : ∀ x ∈ rest, ¬ samePair x s) :
    mergeScan overwrite s pre.length (pre ++ rest) e = (pre ++ rest, e) := by
  induction rest generalizing pre with
  | nil => exact mergeScan_of_length_le _ _ _ _ _ (by simp)
  | cons x xs ih =>
    rw [mergeScan]
    have hx : ¬ samePair x s := h x (by simp)
    have := ih (pre ++ [x]) (fun y hy => h y (by simp [hy]))
    simp only [List.length_append, List.length_singleton, List.append_assoc,
      List.singleton_append] at this
    simp [hx, this, getElem_append_cons_length]

theorem mergeScan_keep (s : Resource) (pre rest : List Resource) (e : Bool) :
    mergeScan false s pre.length (pre ++ rest) e =
      (pre ++ rest, e || rest.any (fun x => decide (samePair x s))) := by
  induction rest generalizing pre e with
  | nil =>
    rw [mergeScan_of_length_le _ _ _ _ _ (by simp)]
    simp
  | cons x xs ih =>
    rw [mergeScan]
    have h1 := ih (pre ++ [x]) true
    have h2 := ih (pre ++ [x]) e
    simp only [List.length_append, List.length_singleton, List.append_assoc,
      List.singleton_append] at h1 h2
    by_cases hx : samePair x s
    · simp [hx, h1, getElem_append_cons_length]
    · simp [hx, h2, getElem_append_cons_length]

theorem mergeScan_single (s : Resource) (pre front : List Resource) (d : Resource)
    (back : List Resource) (e : Bool)
    (hfront : ∀ x ∈ front, ¬ samePair x s) (hd : samePair d s)
    (hback : ∀ x ∈ back, ¬ samePair x s) :
    mergeScan true s pre.length (pre ++ (front ++ d :: back)) e = (pre ++ (front ++ back), e) := by
  induction front generalizing pre with
  | nil =>
    rw [mergeScan]
    simp only [List.nil_append, List.length_append, List.length_cons, Nat.lt_add_right_iff_pos,
      Nat.zero_lt_succ, ↓reduceDIte, getElem_append_cons_length, hd, ↓reduceIte,
      eraseIdx_append_cons_length]
    cases back with
    | nil => exact mergeScan_of_length_le _ _ _ _ _ (by simp)
    | cons b bs =>
      have := mergeScan_none true s (pre ++ [b]) bs e (fun y hy => hback y (by simp [hy]))
      simpa using this
  | cons x xs ih =>
    rw [mergeScan]
    have hx : ¬ samePair x s := hfront x (by simp)
    have := ih (pre ++ [x]) (fun y hy => hfront y (by simp [hy]))
    simp only [List.length_append, List.length_singleton, List.append_assoc,
      List.singleton_append] at this
    simp [hx, this, getElem_append_cons_length]

theorem mergeResource_keep_of_mem (host : Host) (dbDir srcDbDir : String)
    (st : MergeState) (s : Resource)
    (hex : ∃ x ∈ st.resources, samePair x s) :
    mergeResource host dbDir srcDbDir false st s = st := by
  have hscan := mergeScan_keep s [] st.resources false
  simp only [List.length_nil, List.nil_append, Bool.false_or] at hscan
  have hany : st.resources.any (fun x => decide (samePair x s)) = true := by
    rw [List.any_eq_true]
    obtain ⟨x, hx, hp⟩ := hex
    exact ⟨x, hx, by simpa using hp⟩
  rw [hany] at hscan
  simp [mergeResource, hscan]

/-- C5, the code at the failing input: the destination holds two adjacent covers
of `id1` (sources `A` and `B`); merging the cover of `id1` from source `C` with
`overwrite` on removes only the first of them, because `removeAt(a)` is
followed by `++a`; the cover of source `B` is still in the list. -/
theorem mergeDb_adjacent_match_survives :
    (mergeDb sampleHost
        ⟨"/db", [⟨"id1", "cover", "A", "covers/A/id1.png", 1⟩,
          ⟨"id1", "cover", "B", "covers/B/id1.png", 1⟩], [], 0⟩
        ⟨[("/db/covers/A/id1.png", "a"), ("/db/covers/B/id1.png", "b"),
          ("/src/covers/C/id1.png", "c")]⟩
        ⟨"/src", [⟨"id1", "cover", "C", "covers/C/id1.png", 2⟩], [], 0⟩ true "/src").resources =
      [⟨"id1", "cover", "B", "covers/B/id1.png", 1⟩,
        ⟨"id1", "cover", "C", "covers/C/id1.png", 2⟩] := by
  simp [mergeDb, mergeResource, mergeScan, samePair, isBlobType, copyFile, Disk.content,
    Disk.hasFile, List.lookup, sampleHost]

/-- C6 (merge key ignores source).  When the destination holds exactly one
resource with the `sha1` and `type` of the source-store resource, whatever the
sources of the two are, the body of `mergeDb` with `overwrite` on (the blob copy
succeeding for a blob type) removes that resource, appends the source-store
resource and counts one update; the other destination resources stay in place
and in order. -/
theorem mergeResource_replaces_single (host : Host) (dbDir srcDbDir : String)
    (st : MergeState) (s : Resource) (front : List Resource) (d : Resource)
    (back : List Resource)
    (hres : st.resources = front ++ d :: back)
    (hd : samePair d s)
    (hfront : ∀ x ∈ front, ¬ samePair x s)
    (hback : ∀ x ∈ back, ¬ samePair x s)
    (hcopy : isBlobType s.type = true →
      (copyFile host (srcDbDir ++ "/" ++ s.value) (dbDir ++ "/" ++ s.value) st.disk).1 = true) :
    mergeResource host dbDir srcDbDir true st s =
      { resources := front ++ back ++ [s],
        disk := if isBlobType s.type
          then (copyFile host (srcDbDir ++ "/" ++ s.value) (dbDir ++ "/" ++ s.value) st.disk).2
          else st.disk,
        resUpdated := st.resUpdated + 1,
        resMerged := st.resMerged } := by
  have hscan := mergeScan_single s [] front d back false hfront hd hback
  simp only [List.length_nil, List.nil_append] at hscan
  rw [← hres] at hscan
  by_cases hb : isBlobType s.type = true
  · simp [mergeResource, hscan, hb, hcopy hb]
  · simp [mergeResource, hscan, hb]

/-- C6, instance: the destination holds `(id1, cover, sourceA)`, the source store
`(id1, cover, sourceB)`; after the merge with `overwrite` on the destination
holds the cover of `sourceB` only. -/
theorem mergeResource_replaces_single_witness :
    mergeDb sampleHost ⟨"/db", [⟨"id1", "cover", "sourceA", "covers/sourceA/id1.png", 1⟩], [], 0⟩
        ⟨[("/db/covers/sourceA/id1.png", "a"), ("/src/covers/sourceB/id1.png", "b")]⟩
        ⟨"/src", [⟨"id1", "cover", "sourceB", "covers/sourceB/id1.png", 2⟩], [], 0⟩ true "/src" =
      { resources := [⟨"id1", "cover", "sourceB", "covers/sourceB/id1.png", 2⟩],
        disk := ⟨[("/db/covers/sourceA/id1.png", "a"), ("/src/covers/sourceB/id1.png", "b"),
          ("/db/covers/sourceB/id1.png", "b")]⟩,
        resUpdated := 1, resMerged := 0 } := by
  have h := mergeResource_replaces_single sampleHost "/db" "/src"
    { resources := [⟨"id1", "cover", "sourceA", "covers/sourceA/id1.png", 1⟩],
      disk := ⟨[("/db/covers/sourceA/id1.png", "a"), ("/src/covers/sourceB/id1.png", "b")]⟩,
      resUpdated := 0, resMerged := 0 }
    ⟨"id1", "cover", "sourceB", "covers/sourceB/id1.png", 2⟩
    [] ⟨"id1", "cover", "sourceA", "covers/sourceA/id1.png", 1⟩ [] rfl (by decide)
    (by decide) (by decide) (by decide)
  simp only [mergeDb, List.foldl_cons, List.foldl_nil, h]
  decide

/-- C8 (merge skip without overwrite).  With `overwrite` off, when the
destination holds a resource with the `sha1` and `type` of the source-store
resource, the body of `mergeDb` leaves the whole state as it was: the list, the
disk and both counters. -/
theorem mergeResource_skips_existing (host : Host) (dbDir srcDbDir : String)
    (st : MergeState) (s : Resource)
    (hex : ∃ x ∈ st.resources, samePair x s) :
    mergeResource host dbDir srcDbDir false st s = st :=
  mergeResource_keep_of_mem host dbDir srcDbDir st s hex

/-- C8, instance: the destination holds the cover of `id1` from `sourceA`; merging
the cover of `id1` from `sourceB` with `overwrite` off changes nothing and copies
nothing. -/
theorem mergeResource_skips_existing_witness :
    mergeResource sampleHost "/db" "/src" false
        { resources := [⟨"id1", "cover", "sourceA", "covers/sourceA/id1.png", 1⟩],
          disk := ⟨[("/db/covers/sourceA/id1.png", "a"), ("/src/covers/sourceB/id1.png", "b")]⟩,
          resUpdated := 0, resMerged := 0 }
        ⟨"id1", "cover", "sourceB", "covers/sourceB/id1.png", 2⟩ =
      { resources := [⟨"id1", "cover", "sourceA", "covers/sourceA/id1.png", 1⟩],
        disk := ⟨[("/db/covers/sourceA/id1.png", "a"), ("/src/covers/sourceB/id1.png", "b")]⟩,
        resUpdated := 0, resMerged := 0 } :=
  mergeResource_skips_existing sampleHost "/db" "/src"
    { resources := [⟨"id1", "cover", "sourceA", "covers/sourceA/id1.png", 1⟩],
      disk := ⟨[("/db/covers/sourceA/id1.png", "a"), ("/src/covers/sourceB/id1.png", "b")]⟩,
      resUpdated := 0, resMerged := 0 }
    ⟨"id1", "cover", "sourceB", "covers/sourceB/id1.png", 2⟩
    ⟨⟨"id1", "cover", "sourceA", "covers/sourceA/id1.png", 1⟩, by decide, by decide⟩

theorem mergeResource_counters (host : Host) (dbDir srcDbDir : String) (overwrite : Bool)
    (st : MergeState) (s : Resource) :
    (mergeResource host dbDir srcDbDir overwrite st s).resUpdated =
        st.resUpdated +
          (if overwrite then (if mergeAppends host dbDir srcDbDir overwrite st s then 1 else 0)
            else 0) ∧
      (mergeResource host dbDir srcDbDir overwrite st s).resMerged =
        st.resMerged +
          (if overwrite then 0
            else (if mergeAppends host dbDir srcDbDir overwrite st s then 1 else 0)) := by
  have hne : ∀ l : List Resource, l ≠ l ++ [s] := by
    intro l h
    have := congrArg List.length h
    simp at this
  simp only [mergeAppends, mergeResource]
  generalize mergeScan overwrite s 0 st.resources false = scan
  generalize (if isBlobType s.type = true
    then copyFile host (srcDbDir ++ "/" ++ s.value) (dbDir ++ "/" ++ s.value) st.disk
    else (true, st.disk)) = c
  obtain ⟨l, e⟩ := scan
  obtain ⟨ok, d⟩ := c
  cases overwrite <;> cases e <;> cases ok <;> simp [hne]

theorem mergeDb_counters_from (host : Host) (dbDir srcDbDir : String) (overwrite : Bool)
    (srcResources : List Resource) (st : MergeState) :
    (srcResources.foldl (mergeResource host dbDir srcDbDir overwrite) st).resUpdated =
        st.resUpdated +
          (if overwrite then appendedCount host dbDir srcDbDir overwrite st srcResources else 0) ∧
      (srcResources.foldl (mergeResource host dbDir srcDbDir overwrite) st).resMerged =
        st.resMerged +
          (if overwrite then 0 else appendedCount host dbDir srcDbDir overwrite st srcResources) := by
  induction srcResources generalizing st with
  | nil => simp [appendedCount]
  | cons s rest ih =>
    obtain ⟨h1, h2⟩ := ih (mergeResource host dbDir srcDbDir overwrite st s)
    obtain ⟨c1, c2⟩ := mergeResource_counters host dbDir srcDbDir overwrite st s
    simp only [List.foldl_cons, appendedCount]
    rw [h1, h2, c1, c2]
    cases overwrite <;> simp <;> ring

/-- C7, the claim fails: the destination is empty, so the title of `id1` has no
destination match; merged with `overwrite` on it is appended and counted in
`resUpdated`, while `resMerged` stays 0. -/
theorem mergeDb_unmatched_counted_updated :
    (∀ x ∈ (⟨"/db", [], [], 0⟩ : LocalDb).resources,
        ¬ samePair x ⟨"id1", "title", "A", "Title", 1⟩) ∧
      mergeDb sampleHost ⟨"/db", [], [], 0⟩ ⟨[]⟩
          ⟨"/src", [⟨"id1", "title", "A", "Title", 1⟩], [], 0⟩ true "/src" =
        { resources := [⟨"id1", "title", "A", "Title", 1⟩], disk := ⟨[]⟩,
          resUpdated := 1, resMerged := 0 } ∧
      ¬ ((mergeDb sampleHost ⟨"/db", [], [], 0⟩ ⟨[]⟩
            ⟨"/src", [⟨"id1", "title", "A", "Title", 1⟩], [], 0⟩ true "/src").resMerged = 1 ∧
          (mergeDb sampleHost ⟨"/db", [], [], 0⟩ ⟨[]⟩
            ⟨"/src", [⟨"id1", "title", "A", "Title", 1⟩], [], 0⟩ true "/src").resUpdated = 0) := by
  have h : mergeDb sampleHost ⟨"/db", [], [], 0⟩ ⟨[]⟩
      ⟨"/src", [⟨"id1", "title", "A", "Title", 1⟩], [], 0⟩ true "/src" =
      { resources := [⟨"id1", "title", "A", "Title", 1⟩], disk := ⟨[]⟩,
        resUpdated := 1, resMerged := 0 } := by
    simp [mergeDb, mergeResource, mergeScan, isBlobType]
  refine ⟨by simp, h, ?_⟩
  rw [h]
  simp

/-- C7, amended (merge counters).  After `mergeDb` with `overwrite` on,
`resUpdated` is the number of appended source resources, whether or not a
destination match was removed for them, and `resMerged` is 0; with `overwrite`
off, `resMerged` is the number of appended source resources and `resUpdated` is
0, and a resource is appended only when the destination holds no resource with
its `sha1` and `type`. -/
theorem mergeDb_counters (host : Host) (db : LocalDb) (disk : Disk) (srcDb : LocalDb)
    (overwrite : Bool) (srcDbDir : String) :
    (mergeDb host db disk srcDb overwrite srcDbDir).resUpdated =
        (if overwrite then appendedCount host db.dbDir srcDbDir overwrite
            { resources := db.resources, disk := disk, resUpdated := 0, resMerged := 0 }
            srcDb.resources
          else 0) ∧
      (mergeDb host db disk srcDb overwrite srcDbDir).resMerged =
        (if overwrite then 0
          else appendedCount host db.dbDir srcDbDir overwrite
            { resources := db.resources, disk := disk, resUpdated := 0, resMerged := 0 }
            srcDb.resources) ∧
      (∀ (st : MergeState) (s : Resource),
        mergeAppends host db.dbDir srcDbDir false st s = true →
          ∀ x ∈ st.resources, ¬ samePair x s) := by
  obtain ⟨h1, h2⟩ := mergeDb_counters_from host db.dbDir srcDbDir overwrite srcDb.resources
    { resources := db.resources, disk := disk, resUpdated := 0, resMerged := 0 }
  refine ⟨by simpa [mergeDb] using h1, by simpa [mergeDb] using h2, ?_⟩
  intro st s happ x hx hp
  have hskip := mergeResource_keep_of_mem host db.dbDir srcDbDir st s ⟨x, hx, hp⟩
  have hscan := mergeScan_keep s [] st.resources false
  simp only [List.length_nil, List.nil_append, Bool.false_or] at hscan
  unfold mergeAppends at happ
  rw [hskip, hscan] at happ
  have := congrArg List.length (of_decide_eq_true happ)
  simp at this

/-! ## Theorems: `verifyFiles` and `cleanDb` -/

theorem takeWhile_append_stop {α : Type} (p : α → Bool) (l1 : List α) (x : α) (l2 : List α)
    (hx : p x = false) : (l1 ++ x :: l2).takeWhile p = l1.takeWhile p := by
  induction l1 with
  | nil => simp [List.takeWhile, hx]
  | cons a l ih =>
    simp only [List.cons_append, List.takeWhile_cons, ih]

/-- The file name of `dir/value` is the file name of `value`. -/
theorem fileName_under (dir value : String) :
    fileName (dir ++ "/" ++ value) = fileName value := by
  unfold fileName
  have hd : (dir ++ "/" ++ value).data = dir.data ++ '/' :: value.data := by
    simp [String.data_append]
  rw [hd]
  have : (dir.data ++ '/' :: value.data).reverse = value.data.reverse ++ '/' :: dir.data.reverse := by
    simp
  rw [this, takeWhile_append_stop _ _ _ _ (by simp)]

theorem hasFile_erase (d : Disk) (q p : String) :
    (d.erase q).hasFile p = (d.hasFile p && decide (p ≠ q)) := by
  unfold Disk.erase Disk.hasFile
  induction d.files with
  | nil => simp
  | cons f fs ih =>
    by_cases hq : f.1 = q
    · by_cases hp : f.1 = p
      · have : p = q := hp ▸ hq
        simp [List.filter_cons, hq, this] at ih ⊢
      · have hpq : ¬ (q = p) := fun h => hp (hq.trans h)
        simp [List.filter_cons, hq, hpq] at ih ⊢
        exact ih
    · by_cases hp : f.1 = p
      · have : ¬ (p = q) := fun h => hq (hp.trans h)
        simp [List.filter_cons, hq, hp, this]
      · simp [List.filter_cons, hq, hp] at ih ⊢
        exact ih

/-- One pass of the loop of `verifyFiles` removes from the disk exactly the file
`path` when it is not valid and can be removed, and counts one attempt when it
is not valid. -/
theorem verifyFile_effect (host : Host) (db : LocalDb) (resType : String) (st : SweepState)
    (path : String) :
    (verifyFile host db resType st path).disk.files =
        st.disk.files.filter (fun f =>
          !(decide (f.1 = path) && !fileValid db resType path && host.removable path)) ∧
      (verifyFile host db resType st path).filesDeleted +
          (verifyFile host db resType st path).filesNoDelete =
        st.filesDeleted + st.filesNoDelete + (if fileValid db resType path then 0 else 1) := by
  unfold verifyFile removeFile
  by_cases hv : fileValid db resType path = true
  · simp [hv]
  · simp only [Bool.not_eq_true] at hv
    by_cases hr : host.removable path = true
    · by_cases hf : st.disk.hasFile path = true
      · simp only [hv, hf, hr, Disk.erase]
        simp
        omega
      · simp only [Bool.not_eq_true] at hf
        have hnot : ∀ f ∈ st.disk.files, ¬ f.1 = path := by
          intro f hfm hfp
          have : st.disk.hasFile path = true := by
            unfold Disk.hasFile
            rw [List.any_eq_true]
            exact ⟨f, hfm, by simpa using hfp⟩
          rw [hf] at this
          exact Bool.false_ne_true this
        have hfil : st.disk.files.filter (fun f =>
            !(decide (f.1 = path) && !false && true)) = st.disk.files := by
          rw [List.filter_eq_self]
          intro f hfm
          simp [hnot f hfm]
        simp only [hv, hf, hr, hfil]
        refine ⟨by simp, by simp; omega⟩
    · simp only [Bool.not_eq_true] at hr
      simp only [hv, hr]
      simp
      omega

theorem verifyFiles_effect (host : Host) (db : LocalDb) (resType : String)
    (dirIt : List String) (st : SweepState) :
    (verifyFiles host db dirIt st resType).disk.files =
        st.disk.files.filter (fun f =>
          !(decide (f.1 ∈ dirIt) && !fileValid db resType f.1 && host.removable f.1)) ∧
      (verifyFiles host db dirIt st resType).filesDeleted +
          (verifyFiles host db dirIt st resType).filesNoDelete =
        st.filesDeleted + st.filesNoDelete +
          ((dirIt.filter (fun p => !fileValid db resType p)).length : Int) := by
  induction dirIt generalizing st with
  | nil => simp [verifyFiles]
  | cons x rest ih =>
    obtain ⟨h1, h2⟩ := ih (verifyFile host db resType st x)
    obtain ⟨s1, s2⟩ := verifyFile_effect host db resType st x
    have hfold : verifyFiles host db (x :: rest) st resType =
        verifyFiles host db rest (verifyFile host db resType st x) resType := by
      simp [verifyFiles]
    rw [hfold, h1, h2, s1, s2]
    constructor
    · rw [List.filter_filter]
      apply List.filter_congr
      intro f _
      by_cases hfx : f.1 = x
      · subst hfx
        cases fileValid db resType f.1 <;> cases host.removable f.1 <;> simp
      · simp [hfx]
    · by_cases hv : fileValid db resType x = true
      · simp [List.filter_cons, hv]
      · simp only [Bool.not_eq_true] at hv
        simp [List.filter_cons, hv]
        ring

/-- C9 (sweeper matching).  `verifyFiles` treats a file as valid exactly when some
resource of the swept type has a value with the same file name (whatever the
directories of the two paths are); after the sweep the disk holds the files it
held before except the files of the iterator that are not valid and whose
removal succeeds, so a file is still there iff it was there and is not such a
file; and the two counters together grow by the number of files of the iterator
that are not valid. -/
theorem verifyFiles_matching (host : Host) (db : LocalDb) (dirIt : List String)
    (st : SweepState) (resType : String) :
    (∀ path, fileValid db resType path = true ↔
      ∃ r ∈ db.resources, r.type = resType ∧ fileName r.value = fileName path) ∧
    (verifyFiles host db dirIt st resType).disk.files =
      st.disk.files.filter (fun f =>
        !(decide (f.1 ∈ dirIt) && !fileValid db resType f.1 && host.removable f.1)) ∧
    (∀ p, (verifyFiles host db dirIt st resType).disk.hasFile p = true ↔
      (st.disk.hasFile p = true ∧
        ¬ (p ∈ dirIt ∧ fileValid db resType p = false ∧ host.removable p = true))) ∧
    (verifyFiles host db dirIt st resType).filesDeleted +
        (verifyFiles host db dirIt st resType).filesNoDelete =
      st.filesDeleted + st.filesNoDelete +
        ((dirIt.filter (fun p => !fileValid db resType p)).length : Int) := by
  obtain ⟨h1, h2⟩ := verifyFiles_effect host db resType dirIt st
  refine ⟨?_, h1, ?_, h2⟩
  · intro path
    unfold fileValid
    rw [List.any_eq_true]
    constructor
    · rintro ⟨r, hr, hc⟩
      simp only [decide_eq_true_eq, fileName_under] at hc
      exact ⟨r, hr, hc.1, hc.2.symm⟩
    · rintro ⟨r, hr, ht, hn⟩
      refine ⟨r, hr, ?_⟩
      simp only [decide_eq_true_eq, fileName_under]
      exact ⟨ht, hn.symm⟩
  · intro p
    unfold Disk.hasFile
    rw [h1, List.any_eq_true, List.any_eq_true]
    constructor
    · rintro ⟨f, hf, hp⟩
      have hp2 : f.1 = p := by simpa using hp
      rw [List.mem_filter] at hf
      obtain ⟨hfm, hk⟩ := hf
      refine ⟨⟨f, hfm, hp⟩, ?_⟩
      rintro ⟨hm, hv, hr⟩
      rw [hp2] at hk
      simp [hm, hv, hr] at hk
    · rintro ⟨⟨f, hfm, hp⟩, hk⟩
      have hp2 : f.1 = p := by simpa using hp
      refine ⟨f, ?_, hp⟩
      rw [List.mem_filter]
      refine ⟨hfm, ?_⟩
      rw [hp2]
      by_cases hm : p ∈ dirIt
      · cases hv : fileValid db resType p
        · cases hr : host.removable p
          · simp [hr]
          · exact absurd ⟨hm, hv, hr⟩ hk
        · simp
      · simp [hm]

/-- C9, instance: the index references `covers/A/f1.png`; the cover tree holds
`A/f1.png`, `A/f2.png` and `B/f1.png`.  The sweep deletes `A/f2.png` only:
`B/f1.png` is kept because its file name is the one the index references. -/
theorem verifyFiles_matching_witness :
    (verifyFiles sampleHost ⟨"/db", [⟨"id1", "cover", "A", "covers/A/f1.png", 1⟩], [], 0⟩
        ["/db/covers/A/f1.png", "/db/covers/A/f2.png", "/db/covers/B/f1.png"]
        { disk := ⟨[("/db/covers/A/f1.png", "1"), ("/db/covers/A/f2.png", "2"),
            ("/db/covers/B/f1.png", "3"), ("/db/db.xml", "")]⟩,
          filesDeleted := 0, filesNoDelete := 0 } "cover").disk.files =
      [("/db/covers/A/f1.png", "1"), ("/db/covers/B/f1.png", "3"), ("/db/db.xml", "")] ∧
    verifyFiles sampleHost ⟨"/db", [⟨"id1", "cover", "A", "covers/A/f1.png", 1⟩], [], 0⟩
        ["/db/covers/A/f1.png", "/db/covers/A/f2.png", "/db/covers/B/f1.png"]
        { disk := ⟨[("/db/covers/A/f1.png", "1"), ("/db/covers/A/f2.png", "2"),
            ("/db/covers/B/f1.png", "3"), ("/db/db.xml", "")]⟩,
          filesDeleted := 0, filesNoDelete := 0 } "cover" =
      { disk := ⟨[("/db/covers/A/f1.png", "1"), ("/db/covers/B/f1.png", "3"), ("/db/db.xml", "")]⟩,
        filesDeleted := 1, filesNoDelete := 0 } := by
  refine ⟨?_, by decide⟩
  rw [(verifyFiles_matching sampleHost
    ⟨"/db", [⟨"id1", "cover", "A", "covers/A/f1.png", 1⟩], [], 0⟩
    ["/db/covers/A/f1.png", "/db/covers/A/f2.png", "/db/covers/B/f1.png"]
    { disk := ⟨[("/db/covers/A/f1.png", "1"), ("/db/covers/A/f2.png", "2"),
        ("/db/covers/B/f1.png", "3"), ("/db/db.xml", "")]⟩,
      filesDeleted := 0, filesNoDelete := 0 } "cover").2.1]
  decide

theorem readRecord_eq (reader : Reader) (db : LocalDb) (disk : Disk)
    (resources : List Resource) (raw : RawResource)
    (hdir : isDirectory reader disk (db.dbDir ++ "/" ++ raw.text) = false) :
    readRecord reader db disk resources raw =
      resources ++ (loadedRecord reader db disk raw).toList := by
  obtain ⟨sha1, type, source, timestamp, text⟩ := raw
  cases sha1 with
  | none => simp [readRecord, loadedRecord]
  | some sha1 =>
    cases type with
    | none => simp [readRecord, loadedRecord]
    | some type =>
      cases timestamp with
      | none => simp [readRecord, loadedRecord]
      | some ts =>
        cases source <;>
          cases hb : isBlobType type <;>
          cases hf : disk.hasFile (db.dbDir ++ "/" ++ text) <;>
          simp [readRecord, loadedRecord, pathExists, hf, hb, hdir]

theorem foldl_readRecord (reader : Reader) (db : LocalDb) (disk : Disk)
    (records : List RawResource) (resources : List Resource)
    (hdir : ∀ raw ∈ records, isDirectory reader disk (db.dbDir ++ "/" ++ raw.text) = false) :
    records.foldl (readRecord reader db disk) resources =
      resources ++ records.filterMap (loadedRecord reader db disk) := by
  induction records generalizing resources with
  | nil => simp
  | cons raw rest ih =>
    rw [List.foldl_cons, ih _ (fun x hx => hdir x (List.mem_cons_of_mem _ hx)),
      readRecord_eq _ _ _ _ _ (hdir raw (List.mem_cons_self _ _))]
    cases h : loadedRecord reader db disk raw <;> simp [List.filterMap_cons, h]

/-- Load filtering when no body names a directory.  When `db.xml` opens and the
text of no record is the path of a directory below the cache root, `readDb`
returns true and appends to the list, in record order, exactly the records that
have `sha1`, `type` and `timestamp` and, for the five blob types, whose text
names an existing file below the cache root; each is stored with its `sha1`,
`type` and text, with its source or `generic` when there is none, and with the
`qint64` that `toULongLong` of the timestamp attribute gives.  `resAtLoad` is
the new length. -/
theorem readDb_load_filtering (reader : Reader) (db : LocalDb) (disk : Disk) (text : String)
    (hfile : disk.content (db.dbDir ++ "/db.xml") = some text)
    (hopen : reader.readable (db.dbDir ++ "/db.xml") = true)
    (hdir : ∀ raw ∈ reader.parseIndex text,
      isDirectory reader disk (db.dbDir ++ "/" ++ raw.text) = false) :
    readDb reader db disk =
      (true,
        { db with
          resources := db.resources ++
            (reader.parseIndex text).filterMap (loadedRecord reader db disk),
          resAtLoad := ((db.resources ++
            (reader.parseIndex text).filterMap (loadedRecord reader db disk)).length : Nat) }) := by
  simp only [readDb, hfile, hopen, if_true, foldl_readRecord _ _ _ _ _ hdir]

/-- Instance: of the five records of `sampleRecords` the title and the platform
are loaded (the platform with source `generic`); the cover whose file is
missing, the record without `sha1` and the one without `timestamp` are
dropped. -/
theorem readDb_load_filtering_witness :
    readDb sampleReader ⟨"/db", [], [], 0⟩ ⟨[("/db/db.xml", "<resources/>")]⟩ =
      (true,
        ⟨"/db", [⟨"id1", "title", "A", "Title", 7⟩, ⟨"id1", "platform", "generic", "Amiga", 8⟩],
          [], 2⟩) :=
  (readDb_load_filtering sampleReader ⟨"/db", [], [], 0⟩ ⟨[("/db/db.xml", "<resources/>")]⟩
    "<resources/>" (by decide) (by decide) (by decide)).trans (by decide)

/-- C11, the code at the failing input: `db.xml` holds one cover record with an
empty body.  The path tested is the cache root with a closing slash, a
directory that exists because `db.xml` lies in it, so `QFileInfo::exists` is
true and `readDb` loads the record, although no file has that path and the
load rule of the specification drops the record. -/
theorem readDb_loads_blob_without_file :
    readDb emptyBodyReader ⟨"/db", [], [], 0⟩ ⟨[("/db/db.xml", "<resources/>")]⟩ =
      (true, ⟨"/db", [⟨"id1", "cover", "A", "", 9⟩], [], 1⟩) ∧
    (⟨[("/db/db.xml", "<resources/>")]⟩ : Disk).hasFile ("/db" ++ "/" ++ "") = false ∧
    (emptyBodyReader.parseIndex "<resources/>").filterMap
      (loadedRecord emptyBodyReader ⟨"/db", [], [], 0⟩ ⟨[("/db/db.xml", "<resources/>")]⟩) =
      [] := by
  decide

/-! ## Theorems: `addResources` -/

/-- C12, the claim fails: an item with an empty `sha1` and the source `A` does not
end `addResources` in `exit(1)`; the call returns with store, disk and entry as
they were.  And an item with the `sha1` `id1` and no source does end in
`exit(1)`. -/
theorem addResources_empty_sha1_returns :
    addResources sampleHost ⟨"/db", [], [], 0⟩ ⟨[]⟩ { sampleEntry with sha1 := "" }
        keepSettings 5 =
      some (⟨"/db", [], [], 0⟩, ⟨[]⟩, { sampleEntry with sha1 := "" }) ∧
    addResources sampleHost ⟨"/db", [], [], 0⟩ ⟨[]⟩ { sampleEntry with source := "" }
        keepSettings 5 = none := by
  constructor <;> decide

/-- C12, amended (fatal on missing source).  `addResources` ends in `exit(1)`
exactly when the source of the item is empty; with a source it returns, and
when the `sha1` is empty it returns with store, disk and entry as they
were. -/
theorem addResources_fatal_iff_no_source (host : Host) (db : LocalDb) (disk : Disk)
    (entry : GameEntry) (config : Settings) (now : Int) :
    (addResources host db disk entry config now = none ↔ entry.source = "") ∧
    (entry.source ≠ "" → entry.sha1 = "" →
      addResources host db disk entry config now = some (db, disk, entry)) := by
  constructor
  · constructor
    · intro h
      by_contra hs
      by_cases hsha : entry.sha1 = "" <;> simp [addResources, hs, hsha] at h
    · intro hs
      simp [addResources, hs]
  · intro hs hsha
    simp [addResources, hs, hsha]

theorem sameTriple_symm {x y : Resource} (h : sameTriple x y) : sameTriple y x :=
  ⟨h.1.symm, h.2.1.symm, h.2.2.symm⟩

theorem sameTriple_trans {x y z : Resource} (h1 : sameTriple x y) (h2 : sameTriple y z) :
    sameTriple x z :=
  ⟨h1.1.trans h2.1, h1.2.1.trans h2.2.1, h1.2.2.trans h2.2.2⟩

/-- What the search loop of `addResource` returns: either no resource has the
candidate's triple and the list is as it was, or the first such resource is
erased (`updateDb` on) or found (`updateDb` off). -/
theorem addResourceScan_cases (updateDb : Bool) (resource : Resource)
    (resources : List Resource) :
    ((∀ x ∈ resources, ¬ sameTriple x resource) ∧
        addResourceScan updateDb resource 0 resources = (resources, true)) ∨
      ∃ front old back, resources = front ++ old :: back ∧ sameTriple old resource ∧
        (∀ x ∈ front, ¬ sameTriple x resource) ∧
        addResourceScan updateDb resource 0 resources =
          if updateDb then (front ++ back, true) else (resources, false) := by
  by_cases hex : ∃ x ∈ resources, sameTriple x resource
  · exact Or.inr (addResourceScan_of_mem updateDb resource resources hex)
  · left
    have hnone : ∀ x ∈ resources, ¬ sameTriple x resource := fun x hx hs => hex ⟨x, hx, hs⟩
    have hscan := addResourceScan_none updateDb resource [] resources hnone
    simp only [List.length_nil, List.nil_append] at hscan
    exact ⟨hnone, hscan⟩

theorem addResourceScan_sublist (updateDb : Bool) (resource : Resource)
    (resources : List Resource) :
    (addResourceScan updateDb resource 0 resources).1.Sublist resources := by
  rcases addResourceScan_cases updateDb resource resources with ⟨_, h⟩ | ⟨f, o, b, hl, _, _, h⟩
  · rw [h]
  · rw [h]
    cases updateDb
    · simp
    · simp only [if_true, hl]
      exact List.Sublist.append (List.Sublist.refl f) (List.sublist_cons_self o b)

theorem writePayload_scalar (host : Host) (resource : Resource) (entry : GameEntry)
    (dbAbsolutePath : String) (config : Settings) (disk : Disk)
    (h : isBlobType resource.type = false) :
    writePayload host resource entry dbAbsolutePath config disk = (true, disk, entry) := by
  simp only [isBlobType, Bool.or_eq_false_iff, decide_eq_false_iff_not] at h
  obtain ⟨⟨⟨⟨h1, h2⟩, h3⟩, h4⟩, h5⟩ := h
  simp [writePayload, h1, h2, h3, h4, h5]

/-- The list `addResource` leaves: the scanned list, followed by the candidate
when nothing was found (`notFound`) and the payload was written. -/
theorem addResource_resources (host : Host) (db : LocalDb) (disk : Disk)
    (resource : Resource) (entry : GameEntry) (dbAbsolutePath : String) (config : Settings) :
    (addResource host db disk resource entry dbAbsolutePath config).1.resources =
      if (addResourceScan config.updateDb resource 0 db.resources).2 &&
          (writePayload host resource entry dbAbsolutePath config disk).1
      then (addResourceScan config.updateDb resource 0 db.resources).1 ++ [resource]
      else (addResourceScan config.updateDb resource 0 db.resources).1 := by
  simp only [addResource]
  generalize addResourceScan config.updateDb resource 0 db.resources = scan
  generalize writePayload host resource entry dbAbsolutePath config disk = w
  obtain ⟨l, nf⟩ := scan
  obtain ⟨ok, d, e⟩ := w
  cases nf <;> cases ok <;> simp

/-- When `okToAppend` is cleared, that is when an image cannot be saved or the
video file cannot be opened, which can happen for the five blob types only,
`addResource` appends nothing: the list it leaves is the one the search loop
left, a sublist of the old list, so it holds the candidate only if the old list
did. -/
theorem addResource_write_failure (host : Host) (db : LocalDb) (disk : Disk)
    (resource : Resource) (entry : GameEntry) (dbAbsolutePath : String) (config : Settings)
    (hw : (writePayload host resource entry dbAbsolutePath config disk).1 = false) :
    isBlobType resource.type = true ∧
    (addResource host db disk resource entry dbAbsolutePath config).1.resources =
      (addResourceScan config.updateDb resource 0 db.resources).1 ∧
    (addResource host db disk resource entry dbAbsolutePath config).1.resources.Sublist
      db.resources ∧
    (resource ∈ (addResource host db disk resource entry dbAbsolutePath config).1.resources →
      resource ∈ db.resources) := by
  have hres : (addResource host db disk resource entry dbAbsolutePath config).1.resources =
      (addResourceScan config.updateDb resource 0 db.resources).1 := by
    rw [addResource_resources, hw]
    simp
  have hsub := addResourceScan_sublist config.updateDb resource db.resources
  refine ⟨?_, hres, by rw [hres]; exact hsub, fun hm => ?_⟩
  · cases hb : isBlobType resource.type
    · rw [writePayload_scalar host resource entry dbAbsolutePath config disk hb] at hw
      exact absurd hw (by simp)
    · rfl
  · rw [hres] at hm
    exact hsub.subset hm

/-- Instance: on a host where nothing can be written, the replacing upsert of a
cover into a store that holds another title leaves that title alone and the
cover is not in the list. -/
theorem addResource_write_failure_witness :
    (addResource lockedHost ⟨"/db", [⟨"id1", "title", "A", "Title", 1⟩], [], 0⟩ ⟨[]⟩
        ⟨"id1", "cover", "A", "covers/A/id1.png", 2⟩ sampleEntry "/db"
        updateSettings).1.resources = [⟨"id1", "title", "A", "Title", 1⟩] ∧
    ((⟨"id1", "cover", "A", "covers/A/id1.png", 2⟩ : Resource) ∈
        (addResource lockedHost ⟨"/db", [⟨"id1", "title", "A", "Title", 1⟩], [], 0⟩ ⟨[]⟩
          ⟨"id1", "cover", "A", "covers/A/id1.png", 2⟩ sampleEntry "/db"
          updateSettings).1.resources →
      (⟨"id1", "cover", "A", "covers/A/id1.png", 2⟩ : Resource) ∈
        (⟨"/db", [⟨"id1", "title", "A", "Title", 1⟩], [], 0⟩ : LocalDb).resources) :=
  ⟨by simp [addResource, addResourceScan, sameTriple, writePayload, saveImage, lockedHost,
      updateSettings, keepSettings],
    (addResource_write_failure lockedHost ⟨"/db", [⟨"id1", "title", "A", "Title", 1⟩], [], 0⟩
      ⟨[]⟩ ⟨"id1", "cover", "A", "covers/A/id1.png", 2⟩ sampleEntry "/db" updateSettings
      (by decide)).2.2.2⟩

/-- C13, the code at the failing input: the disk is full, the video file can be
opened but `write` stores nothing.  `addResource` does not look at the result
of `write`: the video candidate is appended to the empty store and the file it
names is empty.  On the same host a cover, whose `save` is checked, is not
appended. -/
theorem addResource_appends_video_after_failed_write :
    fullDiskHost.writes ("/db" ++ "/" ++ "videos/A/id1.mp4") videoEntry.videoData = false ∧
    addResource fullDiskHost ⟨"/db", [], [], 0⟩ ⟨[]⟩
        ⟨"id1", "video", "A", "videos/A/id1.mp4", 2⟩ videoEntry "/db" keepSettings =
      (⟨"/db", [⟨"id1", "video", "A", "videos/A/id1.mp4", 2⟩], [], 0⟩,
        ⟨[("/db/videos/A/id1.mp4", "")]⟩, videoEntry) ∧
    (addResource fullDiskHost ⟨"/db", [], [], 0⟩ ⟨[]⟩
        ⟨"id1", "cover", "A", "covers/A/id1.png", 2⟩ coverEntry "/db"
        keepSettings).1.resources = [] := by
  refine ⟨by decide, ?_, ?_⟩
  · have hw : writePayload fullDiskHost ⟨"id1", "video", "A", "videos/A/id1.mp4", 2⟩
        videoEntry "/db" keepSettings ⟨[]⟩ =
        (true, ⟨[("/db/videos/A/id1.mp4", "")]⟩, videoEntry) := by
      decide
    simp [addResource, addResourceScan, hw]
  · have hw : (writePayload fullDiskHost ⟨"id1", "cover", "A", "covers/A/id1.png", 2⟩
        coverEntry "/db" keepSettings ⟨[]⟩).1 = false := by
      decide
    rw [addResource_resources, hw]
    simp [addResourceScan]

/-- C15 (upsert keeps the triple key unique).  When no two resources of the store
share `sha1`, `type` and `source`, the same holds after `addResource`, whatever
the candidate, the settings and the outcome of the write are. -/
theorem addResource_keeps_tripleUnique (host : Host) (db : LocalDb) (disk : Disk)
    (resource : Resource) (entry : GameEntry) (dbAbsolutePath : String) (config : Settings)
    (huniq : tripleUnique db.resources) :
    tripleUnique (addResource host db disk resource entry dbAbsolutePath config).1.resources := by
  unfold tripleUnique at huniq ⊢
  have happ : ∀ l : List Resource, l.Pairwise (fun x y => ¬ sameTriple x y) →
      (∀ x ∈ l, ¬ sameTriple x resource) →
      (l ++ [resource]).Pairwise (fun x y => ¬ sameTriple x y) := by
    intro l hl hno
    rw [List.pairwise_append]
    refine ⟨hl, by simp, ?_⟩
    intro a ha b hb
    simp only [List.mem_singleton] at hb
    rw [hb]
    exact hno a ha
  rcases addResourceScan_cases config.updateDb resource db.resources with
    ⟨hnone, h⟩ | ⟨f, o, b, hl, ho, hf, h⟩
  · rw [addResource_resources, h]
    cases (writePayload host resource entry dbAbsolutePath config disk).1
    · simpa using huniq
    · simpa using happ db.resources huniq hnone
  · cases hu : config.updateDb
    · rw [hu] at h
      simp only [Bool.false_eq_true, if_false] at h
      rw [addResource_resources, hu, h]
      simpa using huniq
    · rw [hu] at h
      simp only [if_true] at h
      have hsub : (f ++ b).Sublist db.resources := by
        rw [hl]
        exact List.Sublist.append (List.Sublist.refl f) (List.sublist_cons_self o b)
      have hfb : (f ++ b).Pairwise (fun x y => ¬ sameTriple x y) := huniq.sublist hsub
      have hno : ∀ x ∈ f ++ b, ¬ sameTriple x resource := by
        intro x hx hs
        rcases List.mem_append.mp hx with hx | hx
        · exact hf x hx hs
        · rw [hl, List.pairwise_append] at huniq
          have hob := (List.pairwise_cons.mp huniq.2.1).1 x hx
          exact hob (sameTriple_trans ho (sameTriple_symm hs))
      rw [addResource_resources, hu, h]
      cases (writePayload host resource entry dbAbsolutePath config disk).1
      · simpa using hfb
      · simpa using happ (f ++ b) hfb hno

/-- C15, instance: a store with the titles of `id1` from `A` and from `B`; after
the replacing upsert of a new title from `A` no two resources share a
triple. -/
theorem addResource_keeps_tripleUnique_witness :
    tripleUnique (addResource sampleHost
      ⟨"/db", [⟨"id1", "title", "A", "Old", 1⟩, ⟨"id1", "title", "B", "Other", 1⟩], [], 0⟩ ⟨[]⟩
      ⟨"id1", "title", "A", "Title", 2⟩ sampleEntry "/db" updateSettings).1.resources :=
  addResource_keeps_tripleUnique sampleHost
    ⟨"/db", [⟨"id1", "title", "A", "Old", 1⟩, ⟨"id1", "title", "B", "Other", 1⟩], [], 0⟩ ⟨[]⟩
    ⟨"id1", "title", "A", "Title", 2⟩ sampleEntry "/db" updateSettings
    (by simp [tripleUnique, sameTriple])

theorem addResourceSeq_cons (host : Host) (config : Settings) (dbAbsolutePath : String)
    (db : LocalDb) (disk : Disk) (u : Resource × GameEntry)
    (rest : List (Resource × GameEntry)) :
    addResourceSeq host config dbAbsolutePath db disk (u :: rest) =
      addResourceSeq host config dbAbsolutePath
        (addResource host db disk u.1 u.2 dbAbsolutePath config).1
        (addResource host db disk u.1 u.2 dbAbsolutePath config).2.1 rest := by
  simp [addResourceSeq]

theorem addResourceSeq_fresh (host : Host) (config : Settings) (dbAbsolutePath : String)
    (upserts : List (Resource × GameEntry)) (db : LocalDb) (disk : Disk)
    (huniq : tripleUnique (db.resources ++ upserts.map Prod.fst))
    (hw : ∀ u ∈ upserts, ∀ d, (writePayload host u.1 u.2 dbAbsolutePath config d).1 = true) :
    (addResourceSeq host config dbAbsolutePath db disk upserts).1.resources =
      db.resources ++ upserts.map Prod.fst := by
  induction upserts generalizing db disk with
  | nil => simp [addResourceSeq]
  | cons u rest ih =>
    have hnone : ∀ x ∈ db.resources, ¬ sameTriple x u.1 := by
      intro x hx
      unfold tripleUnique at huniq
      rw [List.pairwise_append] at huniq
      exact huniq.2.2 x hx u.1 (by simp)
    have hscan := addResourceScan_none config.updateDb u.1 [] db.resources hnone
    simp only [List.length_nil, List.nil_append] at hscan
    have hres : (addResource host db disk u.1 u.2 dbAbsolutePath config).1.resources =
        db.resources ++ [u.1] := by
      rw [addResource_resources, hscan, hw u (by simp) disk]
      simp
    rw [addResourceSeq_cons, ih, hres]
    · simp
    · rw [hres]
      simpa using huniq
    · intro v hv d
      exact hw v (by simp [hv]) d

/-- C16 (concurrent upserts lose nothing, as sequential orders).  Upserts of
candidates with pairwise distinct triples into an empty store, every payload
write succeeding, run in any order one after the other as the store-wide lock
makes them: the list ends as the candidates in the order run, which is a
rearrangement of the given candidates, so it has exactly as many entries as
there are upserts. -/
theorem addResourceSeq_all_orders (host : Host) (config : Settings) (dbAbsolutePath : String)
    (db : LocalDb) (disk : Disk) (upserts order : List (Resource × GameEntry))
    (hempty : db.resources = [])
    (huniq : tripleUnique (upserts.map Prod.fst))
    (hw : ∀ u ∈ upserts, ∀ d, (writePayload host u.1 u.2 dbAbsolutePath config d).1 = true)
    (horder : order.Perm upserts) :
    (addResourceSeq host config dbAbsolutePath db disk order).1.resources =
        order.map Prod.fst ∧
      (order.map Prod.fst).Perm (upserts.map Prod.fst) ∧
      (addResourceSeq host config dbAbsolutePath db disk order).1.resources.length =
        upserts.length := by
  have hperm : (order.map Prod.fst).Perm (upserts.map Prod.fst) := horder.map Prod.fst
  have huniq2 : tripleUnique (db.resources ++ order.map Prod.fst) := by
    rw [hempty, List.nil_append]
    unfold tripleUnique at huniq ⊢
    exact (hperm.pairwise_iff (fun h1 h2 => h1 (sameTriple_symm h2))).mpr huniq
  have hres := addResourceSeq_fresh host config dbAbsolutePath order db disk huniq2
    (fun u hu d => hw u (horder.subset hu) d)
  rw [hempty, List.nil_append] at hres
  refine ⟨hres, hperm, ?_⟩
  rw [hres, List.length_map]
  exact horder.length_eq

/-- C16, instance: the title and the cover of `id1` from source `A`, upserted in
the other order. -/
theorem addResourceSeq_all_orders_witness :
    (addResourceSeq sampleHost keepSettings "/db" ⟨"/db", [], [], 0⟩ ⟨[]⟩
        [(⟨"id1", "cover", "A", "covers/A/id1.png", 2⟩, sampleEntry),
          (⟨"id1", "title", "A", "Title", 1⟩, sampleEntry)]).1.resources =
      [⟨"id1", "cover", "A", "covers/A/id1.png", 2⟩, ⟨"id1", "title", "A", "Title", 1⟩] :=
  (addResourceSeq_all_orders sampleHost keepSettings "/db" ⟨"/db", [], [], 0⟩ ⟨[]⟩
    [(⟨"id1", "title", "A", "Title", 1⟩, sampleEntry),
      (⟨"id1", "cover", "A", "covers/A/id1.png", 2⟩, sampleEntry)]
    [(⟨"id1", "cover", "A", "covers/A/id1.png", 2⟩, sampleEntry),
      (⟨"id1", "title", "A", "Title", 1⟩, sampleEntry)]
    rfl (by simp [tripleUnique, sameTriple])
    (by
      intro u hu d
      simp only [List.mem_cons, List.mem_singleton, List.not_mem_nil, or_false] at hu
      rcases hu with hu | hu <;> subst hu <;>
        simp [writePayload, saveImage, sampleHost])
    (List.Perm.swap _ _ [])).1

theorem writePayload_ok (host : Host) (resource : Resource) (entry : GameEntry)
    (dbAbsolutePath : String) (config : Settings) (disk : Disk)
    (hsave : ∀ image path, host.imageSaves image path = true)
    (hwrite : ∀ path, host.writable path = true) :
    (writePayload host resource entry dbAbsolutePath config disk).1 = true := by
  unfold writePayload saveImage writeFile
  split_ifs <;> simp_all

theorem writePayload_entry_of_not_image (host : Host) (resource : Resource)
    (entry : GameEntry) (dbAbsolutePath : String) (config : Settings) (disk : Disk)
    (h1 : resource.type ≠ "cover") (h2 : resource.type ≠ "screenshot")
    (h3 : resource.type ≠ "wheel") (h4 : resource.type ≠ "marquee") :
    (writePayload host resource entry dbAbsolutePath config disk).2.2 = entry := by
  unfold writePayload
  simp only [h1, h2, h3, h4, if_false]
  split_ifs <;> rfl

/-- What `writePayload` leaves of the entry: identifier and source always, and
the image of every kind other than the one written. -/
theorem writePayload_entry_frame (host : Host) (resource : Resource) (entry : GameEntry)
    (dbAbsolutePath : String) (config : Settings) (disk : Disk) :
    (writePayload host resource entry dbAbsolutePath config disk).2.2.sha1 = entry.sha1 ∧
    (writePayload host resource entry dbAbsolutePath config disk).2.2.source = entry.source ∧
    (resource.type ≠ "cover" →
      (writePayload host resource entry dbAbsolutePath config disk).2.2.coverData =
        entry.coverData) ∧
    (resource.type ≠ "screenshot" →
      (writePayload host resource entry dbAbsolutePath config disk).2.2.screenshotData =
        entry.screenshotData) ∧
    (resource.type ≠ "wheel" →
      (writePayload host resource entry dbAbsolutePath config disk).2.2.wheelData =
        entry.wheelData) ∧
    (resource.type ≠ "marquee" →
      (writePayload host resource entry dbAbsolutePath config disk).2.2.marqueeData =
        entry.marqueeData) := by
  unfold writePayload
  split_ifs <;> simp_all

/-- The entry `addResource` leaves: the one `writePayload` leaves when nothing was
found, else the entry as it was. -/
theorem addResource_entry (host : Host) (db : LocalDb) (disk : Disk)
    (resource : Resource) (entry : GameEntry) (dbAbsolutePath : String) (config : Settings) :
    (addResource host db disk resource entry dbAbsolutePath config).2.2 =
      if (addResourceScan config.updateDb resource 0 db.resources).2
      then (writePayload host resource entry dbAbsolutePath config disk).2.2
      else entry := by
  simp only [addResource]
  generalize addResourceScan config.updateDb resource 0 db.resources = scan
  generalize writePayload host resource entry dbAbsolutePath config disk = w
  obtain ⟨l, nf⟩ := scan
  obtain ⟨ok, d, e⟩ := w
  cases nf <;> cases ok <;> simp

/-- One block of `addResources` for a type no resource of the store has yet, all
writes succeeding: the resource is appended when the field is populated, and
the types in the store are the old ones and this one. -/
theorem addField_resources (host : Host) (config : Settings) (dbAbsolutePath : String)
    (hsave : ∀ image path, host.imageSaves image path = true)
    (hwrite : ∀ path, host.writable path = true)
    (st : LocalDb × Disk × GameEntry) (populated : Bool) (resource : Resource)
    (types : List String)
    (htypes : ∀ x ∈ st.1.resources, x.type ∈ types) (hnew : resource.type ∉ types) :
    (addField host config dbAbsolutePath st populated resource).1.resources =
        st.1.resources ++ (if populated then [resource] else []) ∧
      ∀ x ∈ (addField host config dbAbsolutePath st populated resource).1.resources,
        x.type ∈ resource.type :: types := by
  have hnone : ∀ x ∈ st.1.resources, ¬ sameTriple x resource := by
    intro x hx hs
    exact hnew (hs.2.1 ▸ htypes x hx)
  have hscan := addResourceScan_none config.updateDb resource [] st.1.resources hnone
  simp only [List.length_nil, List.nil_append] at hscan
  have hres : (addField host config dbAbsolutePath st populated resource).1.resources =
      st.1.resources ++ (if populated then [resource] else []) := by
    cases populated
    · simp [addField]
    · simp only [addField, if_true]
      rw [addResource_resources, hscan,
        writePayload_ok host resource st.2.2 dbAbsolutePath config st.2.1 hsave hwrite]
      simp
  refine ⟨hres, ?_⟩
  intro x hx
  rw [hres] at hx
  rcases List.mem_append.mp hx with hx | hx
  · exact List.mem_cons_of_mem _ (htypes x hx)
  · cases populated
    · simp at hx
    · simp only [if_true, List.mem_singleton] at hx
      rw [hx]
      exact List.mem_cons_self _ _

theorem addField_entry_of_not_image (host : Host) (config : Settings)
    (dbAbsolutePath : String) (st : LocalDb × Disk × GameEntry) (populated : Bool)
    (resource : Resource)
    (h1 : resource.type ≠ "cover") (h2 : resource.type ≠ "screenshot")
    (h3 : resource.type ≠ "wheel") (h4 : resource.type ≠ "marquee") :
    (addField host config dbAbsolutePath st populated resource).2.2 = st.2.2 := by
  cases populated
  · simp [addField]
  · simp only [addField, if_true]
    rw [addResource_entry, writePayload_entry_of_not_image _ _ _ _ _ _ h1 h2 h3 h4]
    simp

theorem addField_entry_frame (host : Host) (config : Settings)
    (dbAbsolutePath : String) (st : LocalDb × Disk × GameEntry) (populated : Bool)
    (resource : Resource) :
    (addField host config dbAbsolutePath st populated resource).2.2.sha1 = st.2.2.sha1 ∧
    (addField host config dbAbsolutePath st populated resource).2.2.source = st.2.2.source ∧
    (resource.type ≠ "cover" →
      (addField host config dbAbsolutePath st populated resource).2.2.coverData =
        st.2.2.coverData) ∧
    (resource.type ≠ "screenshot" →
      (addField host config dbAbsolutePath st populated resource).2.2.screenshotData =
        st.2.2.screenshotData) ∧
    (resource.type ≠ "wheel" →
      (addField host config dbAbsolutePath st populated resource).2.2.wheelData =
        st.2.2.wheelData) ∧
    (resource.type ≠ "marquee" →
      (addField host config dbAbsolutePath st populated resource).2.2.marqueeData =
        st.2.2.marqueeData) := by
  cases populated
  · simp [addField]
  · simp only [addField, if_true]
    rw [addResource_entry]
    have h := writePayload_entry_frame host resource st.2.2 dbAbsolutePath config st.2.1
    split_ifs
    · exact h
    · simp

/-- C17 (batch upsert covers exactly the populated fields).  For an item with
identifier and source, an empty store and a host on which every write works,
`addResources` returns, and the list it leaves is `populatedResources`: one
resource per non-empty scalar field, a video when bytes and format are there,
an image for each kind present and switched on, nothing else; each with the
identifier and source of the item, the text of the field or the path of the
blob. -/
theorem addResources_populated (host : Host) (db : LocalDb) (disk : Disk)
    (entry : GameEntry) (config : Settings) (now : Int)
    (hsha : entry.sha1 ≠ "") (hsrc : entry.source ≠ "")
    (hempty : db.resources = [])
    (hsave : ∀ image path, host.imageSaves image path = true)
    (hwrite : ∀ path, host.writable path = true) :
    ∃ st, addResources host db disk entry config now = some st ∧
      st.1.resources = populatedResources entry config now := by
  unfold addResources
  lift_lets
  extract_lets p resource st0 st1 st2 st3 st4 st5 st6 st7 st8 st9 st10 st11 st12 st13 st14
  refine ⟨st14, by simp [hsrc, hsha], ?_⟩
  have hresource : resource =
      { sha1 := entry.sha1, type := "", source := entry.source, value := "", timestamp := now } :=
    rfl
  have e0 : st0.2.2 = entry := rfl
  have r0 : st0.1.resources = [] := hempty
  have hst1 : st1 = addField host config p st0 (decide (st0.2.2.title ≠ ""))
      { resource with type := "title", value := st0.2.2.title } := rfl
  have hst2 : st2 = addField host config p st1 (decide (st1.2.2.platform ≠ ""))
      { resource with type := "platform", value := st1.2.2.platform } := rfl
  have hst3 : st3 = addField host config p st2 (decide (st2.2.2.description ≠ ""))
      { resource with type := "description", value := st2.2.2.description } := rfl
  have hst4 : st4 = addField host config p st3 (decide (st3.2.2.publisher ≠ ""))
      { resource with type := "publisher", value := st3.2.2.publisher } := rfl
  have hst5 : st5 = addField host config p st4 (decide (st4.2.2.developer ≠ ""))
      { resource with type := "developer", value := st4.2.2.developer } := rfl
  have hst6 : st6 = addField host config p st5 (decide (st5.2.2.players ≠ ""))
      { resource with type := "players", value := st5.2.2.players } := rfl
  have hst7 : st7 = addField host config p st6 (decide (st6.2.2.tags ≠ ""))
      { resource with type := "tags", value := st6.2.2.tags } := rfl
  have hst8 : st8 = addField host config p st7 (decide (st7.2.2.rating ≠ ""))
      { resource with type := "rating", value := st7.2.2.rating } := rfl
  have hst9 : st9 = addField host config p st8 (decide (st8.2.2.releaseDate ≠ ""))
      { resource with type := "releasedate", value := st8.2.2.releaseDate } := rfl
  have hst10 : st10 = addField host config p st9 (decide (st9.2.2.videoData ≠ "") && decide (st9.2.2.videoFormat ≠ ""))
      { resource with type := "video", value := "videos/" ++ st9.2.2.source ++ "/" ++ st9.2.2.sha1 ++ "." ++ st9.2.2.videoFormat } := rfl
  have hst11 : st11 = addField host config p st10 (!st10.2.2.coverData.isNull && config.cacheCovers)
      { resource with type := "cover", value := "covers/" ++ st10.2.2.source ++ "/" ++ st10.2.2.sha1 ++ ".png" } := rfl
  have hst12 : st12 = addField host config p st11 (!st11.2.2.screenshotData.isNull && config.cacheScreenshots)
      { resource with type := "screenshot", value := "screenshots/" ++ st11.2.2.source ++ "/" ++ st11.2.2.sha1 ++ ".png" } := rfl
  have hst13 : st13 = addField host config p st12 (!st12.2.2.wheelData.isNull && config.cacheWheels)
      { resource with type := "wheel", value := "wheels/" ++ st12.2.2.source ++ "/" ++ st12.2.2.sha1 ++ ".png" } := rfl
  have hst14 : st14 = addField host config p st13 (!st13.2.2.marqueeData.isNull && config.cacheMarquees)
      { resource with type := "marquee", value := "marquees/" ++ st13.2.2.source ++ "/" ++ st13.2.2.sha1 ++ ".png" } := rfl
  clear_value st14 st13 st12 st11 st10 st9 st8 st7 st6 st5 st4 st3 st2 st1 st0 resource p
  have e1 : st1.2.2 = st0.2.2 := by
    rw [hst1]
    exact addField_entry_of_not_image host config p _ _ _ (by simp) (by simp) (by simp) (by simp)
  have r1 := addField_resources host config p hsave hwrite st0 (decide (st0.2.2.title ≠ ""))
    { resource with type := "title", value := st0.2.2.title } [] (by simp [r0]) (by simp)
  rw [← hst1] at r1
  have e2 : st2.2.2 = st1.2.2 := by
    rw [hst2]
    exact addField_entry_of_not_image host config p _ _ _ (by simp) (by simp) (by simp) (by simp)
  have r2 := addField_resources host config p hsave hwrite st1 (decide (st1.2.2.platform ≠ ""))
    { resource with type := "platform", value := st1.2.2.platform } ["title"] r1.2 (by simp)
  rw [← hst2] at r2
  have e3 : st3.2.2 = st2.2.2 := by
    rw [hst3]
    exact addField_entry_of_not_image host config p _ _ _ (by simp) (by simp) (by simp) (by simp)
  have r3 := addField_resources host config p hsave hwrite st2 (decide (st2.2.2.description ≠ ""))
    { resource with type := "description", value := st2.2.2.description } ["platform", "title"] r2.2 (by simp)
  rw [← hst3] at r3
  have e4 : st4.2.2 = st3.2.2 := by
    rw [hst4]
    exact addField_entry_of_not_image host config p _ _ _ (by simp) (by simp) (by simp) (by simp)
  have r4 := addField_resources host config p hsave hwrite st3 (decide (st3.2.2.publisher ≠ ""))
    { resource with type := "publisher", value := st3.2.2.publisher } ["description", "platform", "title"] r3.2 (by simp)
  rw [← hst4] at r4
  have e5 : st5.2.2 = st4.2.2 := by
    rw [hst5]
    exact addField_entry_of_not_image host config p _ _ _ (by simp) (by simp) (by simp) (by simp)
  have r5 := addField_resources host config p hsave hwrite st4 (decide (st4.2.2.developer ≠ ""))
    { resource with type := "developer", value := st4.2.2.developer } ["publisher", "description", "platform", "title"] r4.2 (by simp)
  rw [← hst5] at r5
  have e6 : st6.2.2 = st5.2.2 := by
    rw [hst6]
    exact addField_entry_of_not_image host config p _ _ _ (by simp) (by simp) (by simp) (by simp)
  have r6 := addField_resources host config p hsave hwrite st5 (decide (st5.2.2.players ≠ ""))
    { resource with type := "players", value := st5.2.2.players } ["developer", "publisher", "description", "platform", "title"] r5.2 (by simp)
  rw [← hst6] at r6
  have e7 : st7.2.2 = st6.2.2 := by
    rw [hst7]
    exact addField_entry_of_not_image host config p _ _ _ (by simp) (by simp) (by simp) (by simp)
  have r7 := addField_resources host config p hsave hwrite st6 (decide (st6.2.2.tags ≠ ""))
    { resource with type := "tags", value := st6.2.2.tags } ["players", "developer", "publisher", "description", "platform", "title"] r6.2 (by simp)
  rw [← hst7] at r7
  have e8 : st8.2.2 = st7.2.2 := by
    rw [hst8]
    exact addField_entry_of_not_image host config p _ _ _ (by simp) (by simp) (by simp) (by simp)
  have r8 := addField_resources host config p hsave hwrite st7 (decide (st7.2.2.rating ≠ ""))
    { resource with type := "rating", value := st7.2.2.rating } ["tags", "players", "developer", "publisher", "description", "platform", "title"] r7.2 (by simp)
  rw [← hst8] at r8
  have e9 : st9.2.2 = st8.2.2 := by
    rw [hst9]
    exact addField_entry_of_not_image host config p _ _ _ (by simp) (by simp) (by simp) (by simp)
  have r9 := addField_resources host config p hsave hwrite st8 (decide (st8.2.2.releaseDate ≠ ""))
    { resource with type := "releasedate", value := st8.2.2.releaseDate } ["rating", "tags", "players", "developer", "publisher", "description", "platform", "title"] r8.2 (by simp)
  rw [← hst9] at r9
  have e10 : st10.2.2 = st9.2.2 := by
    rw [hst10]
    exact addField_entry_of_not_image host config p _ _ _ (by simp) (by simp) (by simp) (by simp)
  have r10 := addField_resources host config p hsave hwrite st9 (decide (st9.2.2.videoData ≠ "") && decide (st9.2.2.videoFormat ≠ ""))
    { resource with type := "video", value := "videos/" ++ st9.2.2.source ++ "/" ++ st9.2.2.sha1 ++ "." ++ st9.2.2.videoFormat } ["releasedate", "rating", "tags", "players", "developer", "publisher", "description", "platform", "title"] r9.2 (by simp)
  rw [← hst10] at r10
  have f11 := addField_entry_frame host config p st10 (!st10.2.2.coverData.isNull && config.cacheCovers)
    { resource with type := "cover", value := "covers/" ++ st10.2.2.source ++ "/" ++ st10.2.2.sha1 ++ ".png" }
  rw [← hst11] at f11
  have r11 := addField_resources host config p hsave hwrite st10 (!st10.2.2.coverData.isNull && config.cacheCovers)
    { resource with type := "cover", value := "covers/" ++ st10.2.2.source ++ "/" ++ st10.2.2.sha1 ++ ".png" } ["video", "releasedate", "rating", "tags", "players", "developer", "publisher", "description", "platform", "title"] r10.2 (by simp)
  rw [← hst11] at r11
  have f12 := addField_entry_frame host config p st11 (!st11.2.2.screenshotData.isNull && config.cacheScreenshots)
    { resource with type := "screenshot", value := "screenshots/" ++ st11.2.2.source ++ "/" ++ st11.2.2.sha1 ++ ".png" }
  rw [← hst12] at f12
  have r12 := addField_resources host config p hsave hwrite st11 (!st11.2.2.screenshotData.isNull && config.cacheScreenshots)
    { resource with type := "screenshot", value := "screenshots/" ++ st11.2.2.source ++ "/" ++ st11.2.2.sha1 ++ ".png" } ["cover", "video", "releasedate", "rating", "tags", "players", "developer", "publisher", "description", "platform", "title"] r11.2 (by simp)
  rw [← hst12] at r12
  have f13 := addField_entry_frame host config p st12 (!st12.2.2.wheelData.isNull && config.cacheWheels)
    { resource with type := "wheel", value := "wheels/" ++ st12.2.2.source ++ "/" ++ st12.2.2.sha1 ++ ".png" }
  rw [← hst13] at f13
  have r13 := addField_resources host config p hsave hwrite st12 (!st12.2.2.wheelData.isNull && config.cacheWheels)
    { resource with type := "wheel", value := "wheels/" ++ st12.2.2.source ++ "/" ++ st12.2.2.sha1 ++ ".png" } ["screenshot", "cover", "video", "releasedate", "rating", "tags", "players", "developer", "publisher", "description", "platform", "title"] r12.2 (by simp)
  rw [← hst13] at r13
  have f14 := addField_entry_frame host config p st13 (!st13.2.2.marqueeData.isNull && config.cacheMarquees)
    { resource with type := "marquee", value := "marquees/" ++ st13.2.2.source ++ "/" ++ st13.2.2.sha1 ++ ".png" }
  rw [← hst14] at f14
  have r14 := addField_resources host config p hsave hwrite st13 (!st13.2.2.marqueeData.isNull && config.cacheMarquees)
    { resource with type := "marquee", value := "marquees/" ++ st13.2.2.source ++ "/" ++ st13.2.2.sha1 ++ ".png" } ["wheel", "screenshot", "cover", "video", "releasedate", "rating", "tags", "players", "developer", "publisher", "description", "platform", "title"] r13.2 (by simp)
  rw [← hst14] at r14
  have s11 := f11.2.2.2.1 (by simp)
  have w11 := f11.2.2.2.2.1 (by simp)
  have m11 := f11.2.2.2.2.2 (by simp)
  have w12 := f12.2.2.2.2.1 (by simp)
  have m12 := f12.2.2.2.2.2 (by simp)
  have m13 := f13.2.2.2.2.2 (by simp)
  rw [r14.1, r13.1, r12.1, r11.1, r10.1, r9.1, r8.1, r7.1, r6.1, r5.1, r4.1, r3.1, r2.1, r1.1,
    r0]
  simp only [m13, f13.1, f13.2.1, w12, m12, f12.1, f12.2.1, s11, w11, m11, f11.1, f11.2.1,
    e10, e9, e8, e7, e6, e5, e4, e3, e2, e1, e0, hresource]
  have hpng : ∀ s : String, s ++ "." ++ "png" = s ++ ".png" := by
    intro s
    rw [String.append_assoc]
    rfl
  simp [populatedResources, hpng]

/-- C17, instance: an item with a title and a cover, covers being cached; the
batch upsert into the empty store leaves the title and the cover. -/
theorem addResources_populated_witness :
    ∃ st, addResources sampleHost ⟨"/db", [], [], 0⟩ ⟨[]⟩
          { sampleEntry with coverData := ⟨false, 10, 10, "px"⟩ }
          { keepSettings with cacheCovers := true } 5 = some st ∧
      st.1.resources =
        [⟨"id1", "title", "A", "Title", 5⟩, ⟨"id1", "cover", "A", "covers/A/id1.png", 5⟩] :=
  (addResources_populated sampleHost ⟨"/db", [], [], 0⟩ ⟨[]⟩
      { sampleEntry with coverData := ⟨false, 10, 10, "px"⟩ }
      { keepSettings with cacheCovers := true } 5 (by decide) (by decide) rfl
      (fun _ _ => rfl) (fun _ => rfl)).imp
    (fun _ h => ⟨h.1, h.2.trans (by decide)⟩)

/-! ## Theorems: resolving after upserts -/

theorem prioScan_some_mem (typeRes : List Resource) (prios : List String) (v s : String)
    (h : prioScan typeRes prios = some (v, s)) :
    ∃ r ∈ typeRes, v = r.value ∧ s = r.source := by
  induction prios with
  | nil => simp [prioScan] at h
  | cons p ps ih =>
    cases hf : typeRes.find? (fun resource => decide (resource.source = p)) with
    | some r =>
      simp only [prioScan, hf, Option.some.injEq, Prod.mk.injEq] at h
      exact ⟨r, List.mem_of_find?_eq_some hf, h.1.symm, h.2.symm⟩
    | none =>
      simp only [prioScan, hf] at h
      exact ih h

/-- What `fillType` returns as a function of the resources of the requested
type: false when there is none, else the priority hit or, without one, the end
state of the timestamp loop. -/
theorem fillType_eq (db : LocalDb) (type : String) (ms : List Resource)
    (result source : String) :
    fillType db type ms result source =
      if typeResources type ms = [] then (false, result, source)
      else
        match (if db.prioMap.contains type then
          prioScan (typeResources type ms) (db.prioMap.value type) else none) with
        | some (v, s) => (true, v, s)
        | none => (true, (newestScan (typeResources type ms) result source).2.1,
            (newestScan (typeResources type ms) result source).2.2) := by
  unfold fillType
  cases h : typeResources type ms <;> simp

/-- When the candidates of the requested type have non-negative timestamps and
`fillType` returns true, the value and the source it returns are those of one
resource of that type in the list. -/
theorem fillType_candidate (db : LocalDb) (type : String) (ms : List Resource)
    (result source : String)
    (hts : ∀ x ∈ ms, x.type = type → 0 ≤ x.timestamp)
    (htrue : (fillType db type ms result source).1 = true) :
    ∃ r ∈ ms, r.type = type ∧
      (fillType db type ms result source).2 = (r.value, r.source) := by
  rw [fillType_eq] at htrue ⊢
  by_cases hnil : typeResources type ms = []
  · simp [hnil] at htrue
  · simp only [hnil, if_false]
    cases hp : (if db.prioMap.contains type then
        prioScan (typeResources type ms) (db.prioMap.value type) else none) with
    | some vs =>
      obtain ⟨v, s⟩ := vs
      have hscan : prioScan (typeResources type ms) (db.prioMap.value type) = some (v, s) := by
        split at hp
        · exact hp
        · exact absurd hp (by simp)
      obtain ⟨r, hr, hv, hs⟩ := prioScan_some_mem _ _ _ _ hscan
      obtain ⟨hrm, hrt⟩ := (mem_typeResources type ms r).mp hr
      exact ⟨r, hrm, hrt, by simp [hv, hs]⟩
    | none =>
      have hts2 : ∀ x ∈ typeResources type ms, 0 ≤ x.timestamp := by
        intro x hx
        obtain ⟨h1, h2⟩ := (mem_typeResources type ms x).mp hx
        exact hts x h1 h2
      obtain ⟨f, r, b, hsplit, _, _, hscan⟩ :=
        newestScan_last_max (typeResources type ms) result source hnil hts2
      have hr : r ∈ typeResources type ms := by
        rw [hsplit]
        simp
      obtain ⟨hrm, hrt⟩ := (mem_typeResources type ms r).mp hr
      exact ⟨r, hrm, hrt, by simp [hscan]⟩

/-! ## Theorems: `fillBlanks` -/

theorem fillType_false_of_no_type (db : LocalDb) (type : String) (ms : List Resource)
    (result source : String) (h : ∀ x ∈ ms, x.type ≠ type) :
    fillType db type ms result source = (false, result, source) := by
  have hnil : typeResources type ms = [] := by
    unfold typeResources
    rw [List.filter_eq_nil_iff]
    intro x hx
    simpa using h x hx
  rw [fillType_eq, hnil]
  simp

/-- A block of `fillBlanks` keeps a part of the entry that its assignment does
not touch, and every part when `fillType` returns false. -/
theorem fillStep_keep {α : Type} (proj : GameEntry → α) (db : LocalDb)
    (ms : List Resource) (type : String)
    (assign : GameEntry → String → String → GameEntry) (entry : GameEntry) (x : α)
    (h : (∀ e v s, proj (assign e v s) = proj e) ∨ (fillType db type ms "" "").1 = false)
    (hinv : proj entry = x) :
    proj (fillStep db ms type assign entry) = x := by
  simp only [fillStep]
  rcases h with h | h
  · split_ifs
    · rw [h, hinv]
    · exact hinv
  · simp [h, hinv]

theorem assignVideo_frame {α : Type} (reader : Reader) (db : LocalDb) (disk : Disk)
    (proj : GameEntry → α)
    (h : ∀ (e : GameEntry) (d f s : String),
      proj { e with videoData := d, videoFormat := f, videoSrc := s } = proj e) :
    ∀ e v s, proj (assignVideo reader db disk e v s) = proj e := by
  intro e v s
  unfold assignVideo
  split
  · rfl
  · split_ifs
    · exact h e _ _ _
    · rfl

/-- A block of `fillBlanks` leaves a source annotation as it was or sets it to
the source `fillType` returned, which is the filter when every matching
resource has that source. -/
theorem fillStep_source (proj : GameEntry → String) (db : LocalDb)
    (ms : List Resource) (type : String)
    (assign : GameEntry → String → String → GameEntry) (entry : GameEntry)
    (x scraper : String)
    (hms : ∀ r ∈ ms, r.source = scraper) (hts : ∀ r ∈ ms, 0 ≤ r.timestamp)
    (h : ∀ e v s, proj (assign e v s) = proj e ∨ proj (assign e v s) = s)
    (hinv : proj entry = x ∨ proj entry = scraper) :
    proj (fillStep db ms type assign entry) = x ∨
      proj (fillStep db ms type assign entry) = scraper := by
  unfold fillStep
  by_cases ht : (fillType db type ms "" "").1 = true
  · obtain ⟨r, hr, _, hres⟩ :=
      fillType_candidate db type ms "" "" (fun y hy _ => hts y hy) ht
    have hsrc : (fillType db type ms "" "").2.2 = scraper := by
      rw [hres]
      exact hms r hr
    simp only [ht, if_true]
    rcases h entry (fillType db type ms "" "").2.1 (fillType db type ms "" "").2.2 with h1 | h1
    · rw [h1]
      exact hinv
    · right
      rw [h1, hsrc]
  · simp only [ht]
    exact hinv

theorem assignVideo_source (reader : Reader) (db : LocalDb) (disk : Disk) :
    ∀ e v s, (assignVideo reader db disk e v s).videoSrc = e.videoSrc ∨
      (assignVideo reader db disk e v s).videoSrc = s := by
  intro e v s
  unfold assignVideo
  split
  · exact Or.inl rfl
  · split_ifs
    · exact Or.inr rfl
    · exact Or.inl rfl

theorem matchingResources_source (db : LocalDb) (sha1 scraper : String)
    (h : scraper ≠ "") : ∀ r ∈ matchingResources db sha1 scraper, r.source = scraper := by
  intro r hr
  unfold matchingResources at hr
  rw [List.mem_filter] at hr
  have h2 := hr.2
  simp only [h, if_false, decide_eq_true_eq] at h2
  exact h2.2

/-- C14 (resolve leaves missing kinds alone).  `fillBlanks` returns the store as
it was; `fillType` returns false, with `result` and `source` untouched, for a
type that no matching resource has; and for each of the fourteen kinds that no
matching resource has, the field of the entry and its source annotation are
after `fillBlanks` what they were before. -/
theorem fillBlanks_leaves_missing_kinds (reader : Reader) (db : LocalDb) (disk : Disk)
    (entry : GameEntry) (scraper : String) :
    (fillBlanks reader db disk entry scraper).1 = db ∧
    (∀ type result source,
      (∀ x ∈ matchingResources db entry.sha1 scraper, x.type ≠ type) →
      fillType db type (matchingResources db entry.sha1 scraper) result source =
        (false, result, source)) ∧
    ((∀ x ∈ matchingResources db entry.sha1 scraper, x.type ≠ "title") →
      (fillBlanks reader db disk entry scraper).2.title = entry.title ∧
      (fillBlanks reader db disk entry scraper).2.titleSrc = entry.titleSrc) ∧
    ((∀ x ∈ matchingResources db entry.sha1 scraper, x.type ≠ "platform") →
      (fillBlanks reader db disk entry scraper).2.platform = entry.platform ∧
      (fillBlanks reader db disk entry scraper).2.platformSrc = entry.platformSrc) ∧
    ((∀ x ∈ matchingResources db entry.sha1 scraper, x.type ≠ "description") →
      (fillBlanks reader db disk entry scraper).2.description = entry.description ∧
      (fillBlanks reader db disk entry scraper).2.descriptionSrc = entry.descriptionSrc) ∧
    ((∀ x ∈ matchingResources db entry.sha1 scraper, x.type ≠ "publisher") →
      (fillBlanks reader db disk entry scraper).2.publisher = entry.publisher ∧
      (fillBlanks reader db disk entry scraper).2.publisherSrc = entry.publisherSrc) ∧
    ((∀ x ∈ matchingResources db entry.sha1 scraper, x.type ≠ "developer") →
      (fillBlanks reader db disk entry scraper).2.developer = entry.developer ∧
      (fillBlanks reader db disk entry scraper).2.developerSrc = entry.developerSrc) ∧
    ((∀ x ∈ matchingResources db entry.sha1 scraper, x.type ≠ "players") →
      (fillBlanks reader db disk entry scraper).2.players = entry.players ∧
      (fillBlanks reader db disk entry scraper).2.playersSrc = entry.playersSrc) ∧
    ((∀ x ∈ matchingResources db entry.sha1 scraper, x.type ≠ "tags") →
      (fillBlanks reader db disk entry scraper).2.tags = entry.tags ∧
      (fillBlanks reader db disk entry scraper).2.tagsSrc = entry.tagsSrc) ∧
    ((∀ x ∈ matchingResources db entry.sha1 scraper, x.type ≠ "rating") →
      (fillBlanks reader db disk entry scraper).2.rating = entry.rating ∧
      (fillBlanks reader db disk entry scraper).2.ratingSrc = entry.ratingSrc) ∧
    ((∀ x ∈ matchingResources db entry.sha1 scraper, x.type ≠ "releasedate") →
      (fillBlanks reader db disk entry scraper).2.releaseDate = entry.releaseDate ∧
      (fillBlanks reader db disk entry scraper).2.releaseDateSrc = entry.releaseDateSrc) ∧
    ((∀ x ∈ matchingResources db entry.sha1 scraper, x.type ≠ "cover") →
      (fillBlanks reader db disk entry scraper).2.coverData = entry.coverData ∧
      (fillBlanks reader db disk entry scraper).2.coverSrc = entry.coverSrc) ∧
    ((∀ x ∈ matchingResources db entry.sha1 scraper, x.type ≠ "screenshot") →
      (fillBlanks reader db disk entry scraper).2.screenshotData = entry.screenshotData ∧
      (fillBlanks reader db disk entry scraper).2.screenshotSrc = entry.screenshotSrc) ∧
    ((∀ x ∈ matchingResources db entry.sha1 scraper, x.type ≠ "wheel") →
      (fillBlanks reader db disk entry scraper).2.wheelData = entry.wheelData ∧
      (fillBlanks reader db disk entry scraper).2.wheelSrc = entry.wheelSrc) ∧
    ((∀ x ∈ matchingResources db entry.sha1 scraper, x.type ≠ "marquee") →
      (fillBlanks reader db disk entry scraper).2.marqueeData = entry.marqueeData ∧
      (fillBlanks reader db disk entry scraper).2.marqueeSrc = entry.marqueeSrc) ∧
    ((∀ x ∈ matchingResources db entry.sha1 scraper, x.type ≠ "video") →
      (fillBlanks reader db disk entry scraper).2.videoData = entry.videoData ∧
      (fillBlanks reader db disk entry scraper).2.videoFormat = entry.videoFormat ∧
      (fillBlanks reader db disk entry scraper).2.videoSrc = entry.videoSrc) := by
  have hfalse : ∀ type, (∀ x ∈ matchingResources db entry.sha1 scraper, x.type ≠ type) →
      (fillType db type (matchingResources db entry.sha1 scraper) "" "").1 = false := by
    intro type h
    rw [fillType_false_of_no_type db type _ "" "" h]
  refine ⟨rfl, fun type result source h => fillType_false_of_no_type db type _ result source h,
    ?_⟩
  refine ⟨fun h => ⟨?_, ?_⟩, ?_⟩
  · simp only [fillBlanks]
    repeat
      refine fillStep_keep GameEntry.title _ _ _ _ _ _
        (by first
          | exact Or.inl (fun _ _ _ => rfl)
          | exact Or.inl (assignVideo_frame reader db disk GameEntry.title (fun _ _ _ _ => rfl))
          | exact Or.inr (hfalse _ h)) ?_
    rfl
  · simp only [fillBlanks]
    repeat
      refine fillStep_keep GameEntry.titleSrc _ _ _ _ _ _
        (by first
          | exact Or.inl (fun _ _ _ => rfl)
          | exact Or.inl (assignVideo_frame reader db disk GameEntry.titleSrc (fun _ _ _ _ => rfl))
          | exact Or.inr (hfalse _ h)) ?_
    rfl
  refine ⟨fun h => ⟨?_, ?_⟩, ?_⟩
  · simp only [fillBlanks]
    repeat
      refine fillStep_keep GameEntry.platform _ _ _ _ _ _
        (by first
          | exact Or.inl (fun _ _ _ => rfl)
          | exact Or.inl (assignVideo_frame reader db disk GameEntry.platform (fun _ _ _ _ => rfl))
          | exact Or.inr (hfalse _ h)) ?_
    rfl
  · simp only [fillBlanks]
    repeat
      refine fillStep_keep GameEntry.platformSrc _ _ _ _ _ _
        (by first
          | exact Or.inl (fun _ _ _ => rfl)
          | exact Or.inl (assignVideo_frame reader db disk GameEntry.platformSrc (fun _ _ _ _ => rfl))
          | exact Or.inr (hfalse _ h)) ?_
    rfl
  refine ⟨fun h => ⟨?_, ?_⟩, ?_⟩
  · simp only [fillBlanks]
    repeat
      refine fillStep_keep GameEntry.description _ _ _ _ _ _
        (by first
          | exact Or.inl (fun _ _ _ => rfl)
          | exact Or.inl (assignVideo_frame reader db disk GameEntry.description (fun _ _ _ _ => rfl))
          | exact Or.inr (hfalse _ h)) ?_
    rfl
  · simp only [fillBlanks]
    repeat
      refine fillStep_keep GameEntry.descriptionSrc _ _ _ _ _ _
        (by first
          | exact Or.inl (fun _ _ _ => rfl)
          | exact Or.inl (assignVideo_frame reader db disk GameEntry.descriptionSrc (fun _ _ _ _ => rfl))
          | exact Or.inr (hfalse _ h)) ?_
    rfl
  refine ⟨fun h => ⟨?_, ?_⟩, ?_⟩
  · simp only [fillBlanks]
    repeat
      refine fillStep_keep GameEntry.publisher _ _ _ _ _ _
        (by first
          | exact Or.inl (fun _ _ _ => rfl)
          | exact Or.inl (assignVideo_frame reader db disk GameEntry.publisher (fun _ _ _ _ => rfl))
          | exact Or.inr (hfalse _ h)) ?_
    rfl
  · simp only [fillBlanks]
    repeat
      refine fillStep_keep GameEntry.publisherSrc _ _ _ _ _ _
        (by first
          | exact Or.inl (fun _ _ _ => rfl)
          | exact Or.inl (assignVideo_frame reader db disk GameEntry.publisherSrc (fun _ _ _ _ => rfl))
          | exact Or.inr (hfalse _ h)) ?_
    rfl
  refine ⟨fun h => ⟨?_, ?_⟩, ?_⟩
  · simp only [fillBlanks]
    repeat
      refine fillStep_keep GameEntry.developer _ _ _ _ _ _
        (by first
          | exact Or.inl (fun _ _ _ => rfl)
          | exact Or.inl (assignVideo_frame reader db disk GameEntry.developer (fun _ _ _ _ => rfl))
          | exact Or.inr (hfalse _ h)) ?_
    rfl
  · simp only [fillBlanks]
    repeat
      refine fillStep_keep GameEntry.developerSrc _ _ _ _ _ _
        (by first
          | exact Or.inl (fun _ _ _ => rfl)
          | exact Or.inl (assignVideo_frame reader db disk GameEntry.developerSrc (fun _ _ _ _ => rfl))
          | exact Or.inr (hfalse _ h)) ?_
    rfl
  refine ⟨fun h => ⟨?_, ?_⟩, ?_⟩
  · simp only [fillBlanks]
    repeat
      refine fillStep_keep GameEntry.players _ _ _ _ _ _
        (by first
          | exact Or.inl (fun _ _ _ => rfl)
          | exact Or.inl (assignVideo_frame reader db disk GameEntry.players (fun _ _ _ _ => rfl))
          | exact Or.inr (hfalse _ h)) ?_
    rfl
  · simp only [fillBlanks]
    repeat
      refine fillStep_keep GameEntry.playersSrc _ _ _ _ _ _
        (by first
          | exact Or.inl (fun _ _ _ => rfl)
          | exact Or.inl (assignVideo_frame reader db disk GameEntry.playersSrc (fun _ _ _ _ => rfl))
          | exact Or.inr (hfalse _ h)) ?_
    rfl
  refine ⟨fun h => ⟨?_, ?_⟩, ?_⟩
  · simp only [fillBlanks]
    repeat
      refine fillStep_keep GameEntry.tags _ _ _ _ _ _
        (by first
          | exact Or.inl (fun _ _ _ => rfl)
          | exact Or.inl (assignVideo_frame reader db disk GameEntry.tags (fun _ _ _ _ => rfl))
          | exact Or.inr (hfalse _ h)) ?_
    rfl
  · simp only [fillBlanks]
    repeat
      refine fillStep_keep GameEntry.tagsSrc _ _ _ _ _ _
        (by first
          | exact Or.inl (fun _ _ _ => rfl)
          | exact Or.inl (assignVideo_frame reader db disk GameEntry.tagsSrc (fun _ _ _ _ => rfl))
          | exact Or.inr (hfalse _ h)) ?_
    rfl
  refine ⟨fun h => ⟨?_, ?_⟩, ?_⟩
  · simp only [fillBlanks]
    repeat
      refine fillStep_keep GameEntry.rating _ _ _ _ _ _
        (by first
          | exact Or.inl (fun _ _ _ => rfl)
          | exact Or.inl (assignVideo_frame reader db disk GameEntry.rating (fun _ _ _ _ => rfl))
          | exact Or.inr (hfalse _ h)) ?_
    rfl
  · simp only [fillBlanks]
    repeat
      refine fillStep_keep GameEntry.ratingSrc _ _ _ _ _ _
        (by first
          | exact Or.inl (fun _ _ _ => rfl)
          | exact Or.inl (assignVideo_frame reader db disk GameEntry.ratingSrc (fun _ _ _ _ => rfl))
          | exact Or.inr (hfalse _ h)) ?_
    rfl
  refine ⟨fun h => ⟨?_, ?_⟩, ?_⟩
  · simp only [fillBlanks]
    repeat
      refine fillStep_keep GameEntry.releaseDate _ _ _ _ _ _
        (by first
          | exact Or.inl (fun _ _ _ => rfl)
          | exact Or.inl (assignVideo_frame reader db disk GameEntry.releaseDate (fun _ _ _ _ => rfl))
          | exact Or.inr (hfalse _ h)) ?_
    rfl
  · simp only [fillBlanks]
    repeat
      refine fillStep_keep GameEntry.releaseDateSrc _ _ _ _ _ _
        (by first
          | exact Or.inl (fun _ _ _ => rfl)
          | exact Or.inl (assignVideo_frame reader db disk GameEntry.releaseDateSrc (fun _ _ _ _ => rfl))
          | exact Or.inr (hfalse _ h)) ?_
    rfl
  refine ⟨fun h => ⟨?_, ?_⟩, ?_⟩
  · simp only [fillBlanks]
    repeat
      refine fillStep_keep GameEntry.coverData _ _ _ _ _ _
        (by first
          | exact Or.inl (fun _ _ _ => rfl)
          | exact Or.inl (assignVideo_frame reader db disk GameEntry.coverData (fun _ _ _ _ => rfl))
          | exact Or.inr (hfalse _ h)) ?_
    rfl
  · simp only [fillBlanks]
    repeat
      refine fillStep_keep GameEntry.coverSrc _ _ _ _ _ _
        (by first
          | exact Or.inl (fun _ _ _ => rfl)
          | exact Or.inl (assignVideo_frame reader db disk GameEntry.coverSrc (fun _ _ _ _ => rfl))
          | exact Or.inr (hfalse _ h)) ?_
    rfl
  refine ⟨fun h => ⟨?_, ?_⟩, ?_⟩
  · simp only [fillBlanks]
    repeat
      refine fillStep_keep GameEntry.screenshotData _ _ _ _ _ _
        (by first
          | exact Or.inl (fun _ _ _ => rfl)
          | exact Or.inl (assignVideo_frame reader db disk GameEntry.screenshotData (fun _ _ _ _ => rfl))
          | exact Or.inr (hfalse _ h)) ?_
    rfl
  · simp only [fillBlanks]
    repeat
      refine fillStep_keep GameEntry.screenshotSrc _ _ _ _ _ _
        (by first
          | exact Or.inl (fun _ _ _ => rfl)
          | exact Or.inl (assignVideo_frame reader db disk GameEntry.screenshotSrc (fun _ _ _ _ => rfl))
          | exact Or.inr (hfalse _ h)) ?_
    rfl
  refine ⟨fun h => ⟨?_, ?_⟩, ?_⟩
  · simp only [fillBlanks]
    repeat
      refine fillStep_keep GameEntry.wheelData _ _ _ _ _ _
        (by first
          | exact Or.inl (fun _ _ _ => rfl)
          | exact Or.inl (assignVideo_frame reader db disk GameEntry.wheelData (fun _ _ _ _ => rfl))
          | exact Or.inr (hfalse _ h)) ?_
    rfl
  · simp only [fillBlanks]
    repeat
      refine fillStep_keep GameEntry.wheelSrc _ _ _ _ _ _
        (by first
          | exact Or.inl (fun _ _ _ => rfl)
          | exact Or.inl (assignVideo_frame reader db disk GameEntry.wheelSrc (fun _ _ _ _ => rfl))
          | exact Or.inr (hfalse _ h)) ?_
    rfl
  refine ⟨fun h => ⟨?_, ?_⟩, ?_⟩
  · simp only [fillBlanks]
    repeat
      refine fillStep_keep GameEntry.marqueeData _ _ _ _ _ _
        (by first
          | exact Or.inl (fun _ _ _ => rfl)
          | exact Or.inl (assignVideo_frame reader db disk GameEntry.marqueeData (fun _ _ _ _ => rfl))
          | exact Or.inr (hfalse _ h)) ?_
    rfl
  · simp only [fillBlanks]
    repeat
      refine fillStep_keep GameEntry.marqueeSrc _ _ _ _ _ _
        (by first
          | exact Or.inl (fun _ _ _ => rfl)
          | exact Or.inl (assignVideo_frame reader db disk GameEntry.marqueeSrc (fun _ _ _ _ => rfl))
          | exact Or.inr (hfalse _ h)) ?_
    rfl
  intro h
  refine ⟨?_, ?_, ?_⟩
  · simp only [fillBlanks]
    repeat
      refine fillStep_keep GameEntry.videoData _ _ _ _ _ _
        (by first
          | exact Or.inl (fun _ _ _ => rfl)
          | exact Or.inl (assignVideo_frame reader db disk GameEntry.videoData (fun _ _ _ _ => rfl))
          | exact Or.inr (hfalse _ h)) ?_
    rfl
  · simp only [fillBlanks]
    repeat
      refine fillStep_keep GameEntry.videoFormat _ _ _ _ _ _
        (by first
          | exact Or.inl (fun _ _ _ => rfl)
          | exact Or.inl (assignVideo_frame reader db disk GameEntry.videoFormat (fun _ _ _ _ => rfl))
          | exact Or.inr (hfalse _ h)) ?_
    rfl
  · simp only [fillBlanks]
    repeat
      refine fillStep_keep GameEntry.videoSrc _ _ _ _ _ _
        (by first
          | exact Or.inl (fun _ _ _ => rfl)
          | exact Or.inl (assignVideo_frame reader db disk GameEntry.videoSrc (fun _ _ _ _ => rfl))
          | exact Or.inr (hfalse _ h)) ?_
    rfl

/-- C14, instance: the store holds a title of `id1` only; after `fillBlanks` the
platform of the entry and its annotation are what they were. -/
theorem fillBlanks_leaves_missing_kinds_witness :
    (fillBlanks sampleReader ⟨"/db", [⟨"id1", "title", "A", "Stored", 1⟩], [], 0⟩ ⟨[]⟩
        { sampleEntry with platform := "Amiga", platformSrc := "user" } "").2.platform =
      "Amiga" ∧
    (fillBlanks sampleReader ⟨"/db", [⟨"id1", "title", "A", "Stored", 1⟩], [], 0⟩ ⟨[]⟩
        { sampleEntry with platform := "Amiga", platformSrc := "user" } "").2.platformSrc =
      "user" :=
  (fillBlanks_leaves_missing_kinds sampleReader
    ⟨"/db", [⟨"id1", "title", "A", "Stored", 1⟩], [], 0⟩ ⟨[]⟩
    { sampleEntry with platform := "Amiga", platformSrc := "user" } "").2.2.2.1 (by decide)

/-- C18 (resolve returns a real candidate).  When the candidates of the requested
type have non-negative timestamps and `fillType` returns true, the value and the
source it returns are those of one resource of that type in the list; hence,
when `fillBlanks` is called with a non-empty source filter on matching
resources with non-negative timestamps, each of the fourteen source annotations
is afterwards what it was or the filter. -/
theorem fillType_returns_candidate (reader : Reader) (db : LocalDb) (disk : Disk)
    (entry : GameEntry) (scraper : String) :
    (∀ type ms result source,
      (∀ x ∈ ms, x.type = type → 0 ≤ x.timestamp) →
      (fillType db type ms result source).1 = true →
      ∃ r ∈ ms, r.type = type ∧
        (fillType db type ms result source).2 = (r.value, r.source)) ∧
    (scraper ≠ "" →
      (∀ x ∈ matchingResources db entry.sha1 scraper, 0 ≤ x.timestamp) →
      ((fillBlanks reader db disk entry scraper).2.titleSrc = entry.titleSrc ∨
        (fillBlanks reader db disk entry scraper).2.titleSrc = scraper) ∧
      ((fillBlanks reader db disk entry scraper).2.platformSrc = entry.platformSrc ∨
        (fillBlanks reader db disk entry scraper).2.platformSrc = scraper) ∧
      ((fillBlanks reader db disk entry scraper).2.descriptionSrc = entry.descriptionSrc ∨
        (fillBlanks reader db disk entry scraper).2.descriptionSrc = scraper) ∧
      ((fillBlanks reader db disk entry scraper).2.publisherSrc = entry.publisherSrc ∨
        (fillBlanks reader db disk entry scraper).2.publisherSrc = scraper) ∧
      ((fillBlanks reader db disk entry scraper).2.developerSrc = entry.developerSrc ∨
        (fillBlanks reader db disk entry scraper).2.developerSrc = scraper) ∧
      ((fillBlanks reader db disk entry scraper).2.playersSrc = entry.playersSrc ∨
        (fillBlanks reader db disk entry scraper).2.playersSrc = scraper) ∧
      ((fillBlanks reader db disk entry scraper).2.tagsSrc = entry.tagsSrc ∨
        (fillBlanks reader db disk entry scraper).2.tagsSrc = scraper) ∧
      ((fillBlanks reader db disk entry scraper).2.ratingSrc = entry.ratingSrc ∨
        (fillBlanks reader db disk entry scraper).2.ratingSrc = scraper) ∧
      ((fillBlanks reader db disk entry scraper).2.releaseDateSrc = entry.releaseDateSrc ∨
        (fillBlanks reader db disk entry scraper).2.releaseDateSrc = scraper) ∧
      ((fillBlanks reader db disk entry scraper).2.coverSrc = entry.coverSrc ∨
        (fillBlanks reader db disk entry scraper).2.coverSrc = scraper) ∧
      ((fillBlanks reader db disk entry scraper).2.screenshotSrc = entry.screenshotSrc ∨
        (fillBlanks reader db disk entry scraper).2.screenshotSrc = scraper) ∧
      ((fillBlanks reader db disk entry scraper).2.wheelSrc = entry.wheelSrc ∨
        (fillBlanks reader db disk entry scraper).2.wheelSrc = scraper) ∧
      ((fillBlanks reader db disk entry scraper).2.marqueeSrc = entry.marqueeSrc ∨
        (fillBlanks reader db disk entry scraper).2.marqueeSrc = scraper) ∧
      ((fillBlanks reader db disk entry scraper).2.videoSrc = entry.videoSrc ∨
        (fillBlanks reader db disk entry scraper).2.videoSrc = scraper)) := by
  refine ⟨fun type ms result source hts htrue =>
    fillType_candidate db type ms result source hts htrue, ?_⟩
  intro hs hts
  have hms := matchingResources_source db entry.sha1 scraper hs
  refine ⟨?_, ?_⟩
  · simp only [fillBlanks]
    repeat
      refine fillStep_source GameEntry.titleSrc _ _ _ _ _ _ scraper hms hts
        (by first
          | exact fun _ _ _ => Or.inl rfl
          | exact fun _ _ _ => Or.inr rfl
          | exact fun e v s =>
              Or.inl (assignVideo_frame reader db disk GameEntry.titleSrc (fun _ _ _ _ => rfl) e v s)) ?_
    exact Or.inl rfl
  refine ⟨?_, ?_⟩
  · simp only [fillBlanks]
    repeat
      refine fillStep_source GameEntry.platformSrc _ _ _ _ _ _ scraper hms hts
        (by first
          | exact fun _ _ _ => Or.inl rfl
          | exact fun _ _ _ => Or.inr rfl
          | exact fun e v s =>
              Or.inl (assignVideo_frame reader db disk GameEntry.platformSrc (fun _ _ _ _ => rfl) e v s)) ?_
    exact Or.inl rfl
  refine ⟨?_, ?_⟩
  · simp only [fillBlanks]
    repeat
      refine fillStep_source GameEntry.descriptionSrc _ _ _ _ _ _ scraper hms hts
        (by first
          | exact fun _ _ _ => Or.inl rfl
          | exact fun _ _ _ => Or.inr rfl
          | exact fun e v s =>
              Or.inl (assignVideo_frame reader db disk GameEntry.descriptionSrc (fun _ _ _ _ => rfl) e v s)) ?_
    exact Or.inl rfl
  refine ⟨?_, ?_⟩
  · simp only [fillBlanks]
    repeat
      refine fillStep_source GameEntry.publisherSrc _ _ _ _ _ _ scraper hms hts
        (by first
          | exact fun _ _ _ => Or.inl rfl
          | exact fun _ _ _ => Or.inr rfl
          | exact fun e v s =>
              Or.inl (assignVideo_frame reader db disk GameEntry.publisherSrc (fun _ _ _ _ => rfl) e v s)) ?_
    exact Or.inl rfl
  refine ⟨?_, ?_⟩
  · simp only [fillBlanks]
    repeat
      refine fillStep_source GameEntry.developerSrc _ _ _ _ _ _ scraper hms hts
        (by first
          | exact fun _ _ _ => Or.inl rfl
          | exact fun _ _ _ => Or.inr rfl
          | exact fun e v s =>
              Or.inl (assignVideo_frame reader db disk GameEntry.developerSrc (fun _ _ _ _ => rfl) e v s)) ?_
    exact Or.inl rfl
  refine ⟨?_, ?_⟩
  · simp only [fillBlanks]
    repeat
      refine fillStep_source GameEntry.playersSrc _ _ _ _ _ _ scraper hms hts
        (by first
          | exact fun _ _ _ => Or.inl rfl
          | exact fun _ _ _ => Or.inr rfl
          | exact fun e v s =>
              Or.inl (assignVideo_frame reader db disk GameEntry.playersSrc (fun _ _ _ _ => rfl) e v s)) ?_
    exact Or.inl rfl
  refine ⟨?_, ?_⟩
  · simp only [fillBlanks]
    repeat
      refine fillStep_source GameEntry.tagsSrc _ _ _ _ _ _ scraper hms hts
        (by first
          | exact fun _ _ _ => Or.inl rfl
          | exact fun _ _ _ => Or.inr rfl
          | exact fun e v s =>
              Or.inl (assignVideo_frame reader db disk GameEntry.tagsSrc (fun _ _ _ _ => rfl) e v s)) ?_
    exact Or.inl rfl
  refine ⟨?_, ?_⟩
  · simp only [fillBlanks]
    repeat
      refine fillStep_source GameEntry.ratingSrc _ _ _ _ _ _ scraper hms hts
        (by first
          | exact fun _ _ _ => Or.inl rfl
          | exact fun _ _ _ => Or.inr rfl
          | exact fun e v s =>
              Or.inl (assignVideo_frame reader db disk GameEntry.ratingSrc (fun _ _ _ _ => rfl) e v s)) ?_
    exact Or.inl rfl
  refine ⟨?_, ?_⟩
  · simp only [fillBlanks]
    repeat
      refine fillStep_source GameEntry.releaseDateSrc _ _ _ _ _ _ scraper hms hts
        (by first
          | exact fun _ _ _ => Or.inl rfl
          | exact fun _ _ _ => Or.inr rfl
          | exact fun e v s =>
              Or.inl (assignVideo_frame reader db disk GameEntry.releaseDateSrc (fun _ _ _ _ => rfl) e v s)) ?_
    exact Or.inl rfl
  refine ⟨?_, ?_⟩
  · simp only [fillBlanks]
    repeat
      refine fillStep_source GameEntry.coverSrc _ _ _ _ _ _ scraper hms hts
        (by first
          | exact fun _ _ _ => Or.inl rfl
          | exact fun _ _ _ => Or.inr rfl
          | exact fun e v s =>
              Or.inl (assignVideo_frame reader db disk GameEntry.coverSrc (fun _ _ _ _ => rfl) e v s)) ?_
    exact Or.inl rfl
  refine ⟨?_, ?_⟩
  · simp only [fillBlanks]
    repeat
      refine fillStep_source GameEntry.screenshotSrc _ _ _ _ _ _ scraper hms hts
        (by first
          | exact fun _ _ _ => Or.inl rfl
          | exact fun _ _ _ => Or.inr rfl
          | exact fun e v s =>
              Or.inl (assignVideo_frame reader db disk GameEntry.screenshotSrc (fun _ _ _ _ => rfl) e v s)) ?_
    exact Or.inl rfl
  refine ⟨?_, ?_⟩
  · simp only [fillBlanks]
    repeat
      refine fillStep_source GameEntry.wheelSrc _ _ _ _ _ _ scraper hms hts
        (by first
          | exact fun _ _ _ => Or.inl rfl
          | exact fun _ _ _ => Or.inr rfl
          | exact fun e v s =>
              Or.inl (assignVideo_frame reader db disk GameEntry.wheelSrc (fun _ _ _ _ => rfl) e v s)) ?_
    exact Or.inl rfl
  refine ⟨?_, ?_⟩
  · simp only [fillBlanks]
    repeat
      refine fillStep_source GameEntry.marqueeSrc _ _ _ _ _ _ scraper hms hts
        (by first
          | exact fun _ _ _ => Or.inl rfl
          | exact fun _ _ _ => Or.inr rfl
          | exact fun e v s =>
              Or.inl (assignVideo_frame reader db disk GameEntry.marqueeSrc (fun _ _ _ _ => rfl) e v s)) ?_
    exact Or.inl rfl
  · simp only [fillBlanks]
    repeat
      refine fillStep_source GameEntry.videoSrc _ _ _ _ _ _ scraper hms hts
        (by first
          | exact fun _ _ _ => Or.inl rfl
          | exact assignVideo_source reader db disk) ?_
    exact Or.inl rfl

/-- C18, instance: the store holds two titles of `id1`, from `A` and from `B`;
`fillBlanks` with the filter `B` annotates the title with `B`. -/
theorem fillType_returns_candidate_witness :
    (fillBlanks sampleReader
        ⟨"/db", [⟨"id1", "title", "A", "FromA", 9⟩, ⟨"id1", "title", "B", "FromB", 1⟩], [], 0⟩
        ⟨[]⟩ sampleEntry "B").2.titleSrc = "B" ∧
    ((fillBlanks sampleReader
        ⟨"/db", [⟨"id1", "title", "A", "FromA", 9⟩, ⟨"id1", "title", "B", "FromB", 1⟩], [], 0⟩
        ⟨[]⟩ sampleEntry "B").2.titleSrc = sampleEntry.titleSrc ∨
      (fillBlanks sampleReader
        ⟨"/db", [⟨"id1", "title", "A", "FromA", 9⟩, ⟨"id1", "title", "B", "FromB", 1⟩], [], 0⟩
        ⟨[]⟩ sampleEntry "B").2.titleSrc = "B") :=
  ⟨by decide,
    ((fillType_returns_candidate sampleReader
      ⟨"/db", [⟨"id1", "title", "A", "FromA", 9⟩, ⟨"id1", "title", "B", "FromB", 1⟩], [], 0⟩
      ⟨[]⟩ sampleEntry "B").2 (by decide) (by decide)).1⟩


theorem mergeResource_keep_cases (host : Host) (dbDir srcDbDir : String)
    (st : MergeState) (s : Resource) :
    mergeResource host dbDir srcDbDir false st s = st ∨
      ∃ d, mergeResource host dbDir srcDbDir false st s =
        { resources := st.resources ++ [s], disk := d,
          resUpdated := st.resUpdated, resMerged := st.resMerged + 1 } := by
  have hscan := mergeScan_keep s [] st.resources false
  simp only [List.length_nil, List.nil_append, Bool.false_or] at hscan
  simp only [mergeResource, hscan]
  generalize (if isBlobType s.type = true
    then copyFile host (srcDbDir ++ "/" ++ s.value) (dbDir ++ "/" ++ s.value) st.disk
    else (true, st.disk)) = c
  obtain ⟨ok, d⟩ := c
  cases st.resources.any (fun x => decide (samePair x s)) <;> cases ok <;> simp

theorem mergeDb_keep_from (host : Host) (dbDir srcDbDir : String)
    (srcResources : List Resource) (st : MergeState) :
    ∃ appended,
      (srcResources.foldl (mergeResource host dbDir srcDbDir false) st).resources =
        st.resources ++ appended ∧
      appended.Sublist srcResources ∧
      (srcResources.foldl (mergeResource host dbDir srcDbDir false) st).resUpdated =
        st.resUpdated ∧
      (srcResources.foldl (mergeResource host dbDir srcDbDir false) st).resMerged =
        st.resMerged + (appended.length : Int) := by
  induction srcResources generalizing st with
  | nil => exact ⟨[], by simp, List.Sublist.refl _, rfl, by simp⟩
  | cons s rest ih =>
    obtain ⟨app, h1, h2, h3, h4⟩ := ih (mergeResource host dbDir srcDbDir false st s)
    rw [List.foldl_cons]
    rcases mergeResource_keep_cases host dbDir srcDbDir st s with hk | ⟨d, hk⟩
    · rw [hk] at h1 h3 h4 ⊢
      exact ⟨app, h1, h2.trans (List.sublist_cons_self s rest), h3, h4⟩
    · rw [hk] at h1 h3 h4 ⊢
      refine ⟨s :: app, by simpa using h1, h2.cons₂ s, h3, ?_⟩
      rw [h4]
      simp only [List.length_cons]
      push_cast
      ring

/-- C20 (merge without overwrite only appends).  After `mergeDb` with `overwrite`
off the destination list is the old list followed by source-store resources in
source-store order, `resUpdated` is 0, and the length of the list is the old
length plus `resMerged`. -/
theorem mergeDb_keep_appends (host : Host) (db : LocalDb) (disk : Disk) (srcDb : LocalDb)
    (srcDbDir : String) :
    ∃ appended,
      (mergeDb host db disk srcDb false srcDbDir).resources = db.resources ++ appended ∧
      appended.Sublist srcDb.resources ∧
      (mergeDb host db disk srcDb false srcDbDir).resUpdated = 0 ∧
      ((mergeDb host db disk srcDb false srcDbDir).resources.length : Int) =
        (db.resources.length : Int) + (mergeDb host db disk srcDb false srcDbDir).resMerged := by
  obtain ⟨app, h1, h2, h3, h4⟩ := mergeDb_keep_from host db.dbDir srcDbDir srcDb.resources
    { resources := db.resources, disk := disk, resUpdated := 0, resMerged := 0 }
  refine ⟨app, h1, h2, h3, ?_⟩
  unfold mergeDb
  rw [h1, h4]
  simp

/-! ## Theorems: a replacing upsert whose write fails -/

/-- C22 (a failed replacing upsert is not a no-op).  There are a store, a cover
candidate and settings with `updateDb` on, the store holding a resource of the
triple of the candidate and the write of the payload failing, for which the
list after `addResource` is one element shorter and holds no resource of that
triple; with `updateDb` on, a resource of the triple in the store and a failing
write the list is always one element shorter; and with `updateDb` off the list
after `addResource` always begins with the list as it was. -/
theorem addResource_failed_replace :
    (∃ (host : Host) (db : LocalDb) (disk : Disk) (resource : Resource) (entry : GameEntry)
        (dbAbsolutePath : String) (config : Settings),
      config.updateDb = true ∧ isBlobType resource.type = true ∧
      (∃ x ∈ db.resources, sameTriple x resource) ∧
      (writePayload host resource entry dbAbsolutePath config disk).1 = false ∧
      (addResource host db disk resource entry dbAbsolutePath config).1.resources.length + 1 =
        db.resources.length ∧
      ∀ x ∈ (addResource host db disk resource entry dbAbsolutePath config).1.resources,
        ¬ sameTriple x resource) ∧
    (∀ (host : Host) (db : LocalDb) (disk : Disk) (resource : Resource) (entry : GameEntry)
        (dbAbsolutePath : String) (config : Settings),
      config.updateDb = true → (∃ x ∈ db.resources, sameTriple x resource) →
      (writePayload host resource entry dbAbsolutePath config disk).1 = false →
      (addResource host db disk resource entry dbAbsolutePath config).1.resources.length + 1 =
        db.resources.length) ∧
    (∀ (host : Host) (db : LocalDb) (disk : Disk) (resource : Resource) (entry : GameEntry)
        (dbAbsolutePath : String) (config : Settings),
      config.updateDb = false →
      ∃ appended,
        (addResource host db disk resource entry dbAbsolutePath config).1.resources =
          db.resources ++ appended) := by
  refine ⟨?_, ?_, ?_⟩
  · refine ⟨lockedHost,
      ⟨"/db", [⟨"id1", "title", "A", "Title", 1⟩, ⟨"id1", "cover", "A", "covers/A/id1.png", 1⟩],
        [], 0⟩,
      ⟨[("/db/covers/A/id1.png", "old")]⟩, ⟨"id1", "cover", "A", "covers/A/id1.png", 2⟩,
      sampleEntry, "/db", updateSettings, rfl, by decide,
      ⟨⟨"id1", "cover", "A", "covers/A/id1.png", 1⟩, by decide, by decide⟩, by decide, ?_, ?_⟩
    · simp [addResource, addResourceScan, sameTriple, writePayload, saveImage, lockedHost,
        updateSettings, keepSettings]
    · simp [addResource, addResourceScan, sameTriple, writePayload, saveImage, lockedHost,
        updateSettings, keepSettings]
  · intro host db disk resource entry dbAbsolutePath config hcfg hex hw
    obtain ⟨f, o, b, hl, _, _, hscan⟩ :=
      addResourceScan_of_mem config.updateDb resource db.resources hex
    rw [hcfg] at hscan
    simp only [if_true] at hscan
    rw [addResource_resources, hcfg, hscan, hw, hl]
    simp
    omega
  · intro host db disk resource entry dbAbsolutePath config hcfg
    rw [addResource_resources, hcfg]
    rcases addResourceScan_cases false resource db.resources with
      ⟨_, h⟩ | ⟨f, o, b, _, _, _, h⟩
    · rw [h]
      cases (writePayload host resource entry dbAbsolutePath config disk).1
      · exact ⟨[], by simp⟩
      · exact ⟨[resource], by simp⟩
    · rw [h]
      exact ⟨[], by simp⟩

/-! ## Theorems: the sweep and the blobs of the index -/

theorem isBlobType_iff_mem (type : String) : isBlobType type = true ↔ type ∈ blobTypes := by
  simp [isBlobType, blobTypes, or_assoc]

/-- The directories of two different blob types do not lie in one another. -/
theorem kindDir_incomparable :
    ∀ t1 ∈ blobTypes, ∀ t2 ∈ blobTypes, t1 ≠ t2 →
      ¬ ((kindDir t1 ++ "/").data <+: (kindDir t2 ++ "/").data) := by
  decide

theorem hasFile_eq_content (d : Disk) (p : String) : d.hasFile p = (d.content p).isSome := by
  unfold Disk.hasFile Disk.content
  induction d.files with
  | nil => rfl
  | cons f fs ih =>
    obtain ⟨k, v⟩ := f
    by_cases h : k = p
    · subst h
      simp [List.lookup]
    · have h2 : (p == k) = false := by
        simp only [beq_eq_false_iff_ne, ne_eq]
        exact fun e => h e.symm
      simp only [List.any_cons, List.lookup, h2, h, decide_False, Bool.false_or]
      exact ih

theorem lookup_filter_key (keep : String → Bool) (p : String) (hp : keep p = true)
    (l : List (String × String)) :
    (l.filter (fun f => keep f.1)).lookup p = l.lookup p := by
  induction l with
  | nil => rfl
  | cons f fs ih =>
    obtain ⟨k, v⟩ := f
    by_cases h : k = p
    · subst h
      simp [List.filter_cons, hp, List.lookup]
    · have h2 : (p == k) = false := by
        simp only [beq_eq_false_iff_ne, ne_eq]
        exact fun e => h e.symm
      by_cases hk : keep k = true
      · simp only [List.filter_cons, hk, if_true, List.lookup, h2]
        exact ih
      · simp only [List.filter_cons, hk, List.lookup, h2]
        exact ih

/-- A sweep leaves the contents of a file that is not in the iterator or that is
valid. -/
theorem verifyFiles_content_keep (host : Host) (db : LocalDb) (dirIt : List String)
    (st : SweepState) (resType : String) (p : String)
    (h : p ∈ dirIt → fileValid db resType p = true) :
    (verifyFiles host db dirIt st resType).disk.content p = st.disk.content p := by
  unfold Disk.content
  rw [(verifyFiles_effect host db resType dirIt st).1]
  apply lookup_filter_key
    (fun k => !(decide (k ∈ dirIt) && !fileValid db resType k && host.removable k))
  by_cases hm : p ∈ dirIt
  · simp [h hm]
  · simp [hm]

/-- A blob of the index that lies in the directory of its type is valid in the
sweep of its own type and is not in the iterator of any other sweep. -/
theorem sweep_keeps (db : LocalDb) (disk : Disk) (r : Resource) (hr : r ∈ db.resources)
    (hblob : r.type ∈ blobTypes)
    (hdir : (kindDir r.type ++ "/").data <+: r.value.data)
    (t : String) (ht : t ∈ blobTypes) :
    (db.dbDir ++ "/" ++ r.value) ∈ dirIterator disk (db.dbDir ++ ("/" ++ kindDir t)) →
      fileValid db t (db.dbDir ++ "/" ++ r.value) = true := by
  intro hm
  by_cases htt : r.type = t
  · unfold fileValid
    rw [List.any_eq_true]
    exact ⟨r, hr, by simp [htt]⟩
  · exfalso
    unfold dirIterator at hm
    rw [List.mem_filter] at hm
    have hp := hm.2
    simp only [decide_eq_true_eq, String.data_append, List.append_assoc] at hp
    rw [List.prefix_append_right_inj, List.prefix_append_right_inj] at hp
    have hp2 : (kindDir t ++ "/").data <+: r.value.data := by
      simpa only [String.data_append] using hp
    rcases List.prefix_or_prefix_of_prefix hp2 hdir with h | h
    · exact kindDir_incomparable t ht r.type hblob (fun e => htt e.symm) h
    · exact kindDir_incomparable r.type hblob t ht htt h

/-- C21 (the sweep never orphans the index).  When the value of every resource of
a blob type is a path in the directory of its type, `cleanDb` leaves every file
whose path below the cache root is the value of a resource of a blob type, that
is every blob the index references: its contents are what they were, so when it
existed before the sweep it exists after it. -/
theorem cleanDb_keeps_index_blobs (host : Host) (db : LocalDb) (disk : Disk)
    (hdirs : ∀ r ∈ db.resources, isBlobType r.type = true →
      (kindDir r.type ++ "/").data <+: r.value.data) :
    ∀ r ∈ db.resources, isBlobType r.type = true →
      (cleanDb host db disk).2.1.content (db.dbDir ++ "/" ++ r.value) =
          disk.content (db.dbDir ++ "/" ++ r.value) ∧
        (disk.hasFile (db.dbDir ++ "/" ++ r.value) = true →
          (cleanDb host db disk).2.1.hasFile (db.dbDir ++ "/" ++ r.value) = true) := by
  intro r hr hb
  have hblob := (isBlobType_iff_mem r.type).mp hb
  have hk := sweep_keeps db disk r hr hblob (hdirs r hr hb)
  have h1 : (db.dbDir ++ "/" ++ r.value) ∈ dirIterator disk (db.dbDir ++ "/covers") →
      fileValid db "cover" (db.dbDir ++ "/" ++ r.value) = true := hk "cover" (by decide)
  have h2 : (db.dbDir ++ "/" ++ r.value) ∈ dirIterator disk (db.dbDir ++ "/screenshots") →
      fileValid db "screenshot" (db.dbDir ++ "/" ++ r.value) = true :=
    hk "screenshot" (by decide)
  have h3 : (db.dbDir ++ "/" ++ r.value) ∈ dirIterator disk (db.dbDir ++ "/wheels") →
      fileValid db "wheel" (db.dbDir ++ "/" ++ r.value) = true := hk "wheel" (by decide)
  have h4 : (db.dbDir ++ "/" ++ r.value) ∈ dirIterator disk (db.dbDir ++ "/marquees") →
      fileValid db "marquee" (db.dbDir ++ "/" ++ r.value) = true := hk "marquee" (by decide)
  have h5 : (db.dbDir ++ "/" ++ r.value) ∈ dirIterator disk (db.dbDir ++ "/videos") →
      fileValid db "video" (db.dbDir ++ "/" ++ r.value) = true := hk "video" (by decide)
  have key : (cleanDb host db disk).2.1.content (db.dbDir ++ "/" ++ r.value) =
      disk.content (db.dbDir ++ "/" ++ r.value) := by
    by_cases hx : disk.hasFile (db.dbDir ++ "/db.xml") = true
    · simp only [cleanDb, hx, Bool.not_true, Bool.false_eq_true, if_false]
      rw [verifyFiles_content_keep host db _ _ "video" _ h5,
        verifyFiles_content_keep host db _ _ "marquee" _ h4,
        verifyFiles_content_keep host db _ _ "wheel" _ h3,
        verifyFiles_content_keep host db _ _ "screenshot" _ h2,
        verifyFiles_content_keep host db _ _ "cover" _ h1]
    · simp [cleanDb, hx]
  refine ⟨key, ?_⟩
  rw [hasFile_eq_content, hasFile_eq_content, key]
  exact id

/-- C21, instance: the index references the cover `covers/A/f1.png`; the cover
tree also holds the orphan `covers/A/f2.png`.  After the sweep the referenced
cover is still there. -/
theorem cleanDb_keeps_index_blobs_witness :
    (cleanDb sampleHost ⟨"/db", [⟨"id1", "cover", "A", "covers/A/f1.png", 1⟩], [], 0⟩
      ⟨[("/db/db.xml", ""), ("/db/covers/A/f1.png", "1"),
        ("/db/covers/A/f2.png", "2")]⟩).2.1.hasFile ("/db" ++ "/" ++ "covers/A/f1.png") = true :=
  ((cleanDb_keeps_index_blobs sampleHost
    ⟨"/db", [⟨"id1", "cover", "A", "covers/A/f1.png", 1⟩], [], 0⟩
    ⟨[("/db/db.xml", ""), ("/db/covers/A/f1.png", "1"), ("/db/covers/A/f2.png", "2")]⟩
    (by decide)) ⟨"id1", "cover", "A", "covers/A/f1.png", 1⟩ (by decide) (by decide)).2
    (by decide)

end Skyscraper
